import Mathlib

/-!
Verification of the djbvts "Daily Distance Report" core: the PDF report
renderer (`src/lib/report-pdf.ts`) and the spreadsheet ingestion /
normalisation pipeline (`src/app/api/reports/data/route.ts`), together with
the verification-summary builder (`src/app/api/reports/generate/route.ts`).

Modelling conventions (shallow embedding of the TypeScript source):
* JavaScript numbers are modelled as exact rationals (`ℚ`).  IEEE-754
  rounding and the exponential `toString` cutoff for magnitudes at or above
  1e21 are not modelled; no claim below depends on them.
* JavaScript strings are modelled as Lean `String`s over their code points;
  the sources only manipulate ASCII text.
* `Number(string)`, `parseFloat`, `parseInt` and the regular expressions
  used by the source are implemented directly on character lists, following
  the ECMAScript grammars; `Infinity` results are modelled as `none`
  (the call sites treat non-finite values exactly like NaN).
* The native `new Date(string)` fallback inside `normaliseDate` is
  implementation-defined beyond the ECMAScript Date Time String Format; it
  is modelled by a parser for that normative format (`jsDateFallback`).
* `new Date(year, month, day)` calendar normalisation is modelled by
  `jsMakeDate` (month overflow and day-0 underflow navigate the proleptic
  Gregorian calendar, as the ECMAScript `MakeDay` algorithm prescribes);
  epoch-millisecond representation and local time zones are not modelled.
-/

set_option allowUnsafeReducibility true in
attribute [semireducible] Rat.add Rat.mul Rat.sub Rat.inv

namespace DJB

/-- JavaScript whitespace recognised by `String.prototype.trim` (the ASCII
fragment; the sources only produce ASCII input). -/
def jsWsChar (c : Char) : Bool :=
  c = ' ' || c = '\t' || c = '\n' || c = '\r' || c = '\x0b' || c = '\x0c'

/-- `String.prototype.trim` on a character list: drop whitespace from both
ends. -/
def trimList (l : List Char) : List Char :=
  ((l.dropWhile jsWsChar).reverse.dropWhile jsWsChar).reverse

/-- `String.prototype.trim`. -/
def jsTrim (s : String) : String :=
  ⟨trimList s.data⟩

/-- Does `pat` occur at the very start of `l`? -/
def subAt : List Char → List Char → Bool
  | [], _ => true
  | _ :: _, [] => false
  | c :: p, d :: l => c = d && subAt p l

/-- Does `pat` occur anywhere in `l`?  Models
`String.prototype.includes pat`. -/
def hasSubL (pat : List Char) : List Char → Bool
  | [] => subAt pat []
  | c :: t => subAt pat (c :: t) || hasSubL pat t

/-- `s.includes(pat)`. -/
def hasSub (s pat : String) : Bool :=
  hasSubL pat.data s.data

/-- Numeric value of a decimal digit character. -/
def digitVal (c : Char) : ℕ := c.toNat - 48

/-- Value of a list of decimal digit characters (most significant first). -/
def digitsVal (l : List Char) : ℕ :=
  l.foldl (fun a c => 10 * a + digitVal c) 0

/-- The decimal digit character for `n < 10`. -/
def digitChar (n : ℕ) : Char := Char.ofNat (48 + n)

/-- Digit printer with structural fuel (so that it reduces inside the
kernel); `natDecimal` supplies sufficient fuel. -/
def natDecimalAux : ℕ → ℕ → List Char
  | 0, _ => []
  | f + 1, n =>
    if n < 10 then [digitChar n]
    else natDecimalAux f (n / 10) ++ [digitChar (n % 10)]

/-- Decimal digit characters of a natural number, as JavaScript
`String(n)` prints them. -/
def natDecimal (n : ℕ) : List Char :=
  natDecimalAux (n + 1) n

/-- JavaScript `String(n)` for a natural number. -/
def natStr (n : ℕ) : String := ⟨natDecimal n⟩

/-- JavaScript `String(z)` for an integer. -/
def intStr (z : ℤ) : String :=
  (if z < 0 then "-" else "") ++ natStr z.natAbs

/-- `String.prototype.padStart(2, "0")`. -/
def padStart2 (s : String) : String :=
  if 2 ≤ s.length then s
  else if s.length = 1 then "0" ++ s
  else "00"

/-- `String(n).padStart(2, "0")` for a natural number. -/
def pad2Nat (n : ℕ) : String := padStart2 (natStr n)

/-! ### ECMAScript numeric string parsing -/

/-- Unsigned decimal mantissa: `digits [. digits]` or `. digits`, returning
its value and the unconsumed suffix. -/
def mantissaOf (l : List Char) : Option (ℚ × List Char) :=
  let ip := l.takeWhile Char.isDigit
  let r1 := l.dropWhile Char.isDigit
  match r1 with
  | c :: r2 =>
    if c = '.' then
      let fp := r2.takeWhile Char.isDigit
      let r3 := r2.dropWhile Char.isDigit
      if ip.isEmpty && fp.isEmpty then none
      else some ((digitsVal ip : ℚ) + (digitsVal fp : ℚ) / (10 : ℚ) ^ fp.length, r3)
    else if ip.isEmpty then none else some ((digitsVal ip : ℚ), c :: r2)
  | [] => if ip.isEmpty then none else some ((digitsVal ip : ℚ), [])

/-- Optional exponent part `e[±]digits`; consumed only when well formed
(matching the regex-style backtracking of the ECMAScript grammar). -/
def expPart (l : List Char) : ℤ × List Char :=
  match l with
  | c :: r =>
    if c = 'e' || c = 'E' then
      match r with
      | s :: r2 =>
        if s = '+' || s = '-' then
          let ds := r2.takeWhile Char.isDigit
          if ds.isEmpty then (0, l)
          else ((if s = '-' then -(digitsVal ds : ℤ) else (digitsVal ds : ℤ)),
                r2.dropWhile Char.isDigit)
        else
          let ds := r.takeWhile Char.isDigit
          if ds.isEmpty then (0, l)
          else ((digitsVal ds : ℤ), r.dropWhile Char.isDigit)
      | [] => (0, l)
    else (0, l)
  | [] => (0, l)

/-- Unsigned decimal literal with optional exponent. -/
def numCore (l : List Char) : Option (ℚ × List Char) :=
  match mantissaOf l with
  | none => none
  | some (m, r) =>
    let er := expPart r
    some (m * (10 : ℚ) ^ er.1, er.2)

/-- Signed decimal literal with optional exponent. -/
def signedCore (l : List Char) : Option (ℚ × List Char) :=
  match l with
  | [] => numCore []
  | c :: r =>
    if c = '+' then numCore r
    else if c = '-' then (numCore r).map (fun p => (-p.1, p.2))
    else numCore (c :: r)

/-- `Number.parseFloat`: skip leading whitespace, read the longest signed
decimal prefix; NaN (no prefix) is `none`.  A literal `Infinity` prefix is
also modelled as `none`: every call site treats non-finite results exactly
like NaN. -/
def parseFloatQ (s : String) : Option ℚ :=
  match signedCore (s.data.dropWhile jsWsChar) with
  | some (q, _) => some q
  | none => none

/-- Hex digit predicate. -/
def isHexDigitB (c : Char) : Bool :=
  c.isDigit || ('a' ≤ c && c ≤ 'f') || ('A' ≤ c && c ≤ 'F')

/-- Value of a hex digit. -/
def hexVal (c : Char) : ℕ :=
  if c.isDigit then digitVal c
  else if 'a' ≤ c && c ≤ 'f' then c.toNat - 87
  else c.toNat - 55

/-- Value of digits in a given base. -/
def radixVal (base : ℕ) (l : List Char) : ℕ :=
  l.foldl (fun a c => base * a + hexVal c) 0

/-- Characters that can appear in a `StrDecimalLiteral`; the guard below
does not change the accepted language (every full match only uses these)
but records it for proofs. -/
def decNumChar (c : Char) : Bool :=
  c.isDigit || c = '+' || c = '-' || c = '.' || c = 'e' || c = 'E'

/-- Full-string signed decimal literal (`Number(...)` after its own trim,
on a non-empty string, decimal case). -/
def decFull (l : List Char) : Option ℚ :=
  if l.all decNumChar then
    match signedCore l with
    | some (q, []) => some q
    | _ => none
  else none

/-- `Number(string)` conversion on an already-trimmed, non-empty character
list: binary / octal / hex literals or a full decimal literal.  `Infinity`
is modelled as `none` (see `parseFloatQ`). -/
def parseNumFull (l : List Char) : Option ℚ :=
  match l with
  | c0 :: c1 :: r =>
    if c0 = '0' && (c1 = 'x' || c1 = 'X') then
      if !r.isEmpty && r.all isHexDigitB then some ((radixVal 16 r : ℚ)) else none
    else if c0 = '0' && (c1 = 'o' || c1 = 'O') then
      if !r.isEmpty && r.all (fun c => '0' ≤ c && c ≤ '7') then some ((radixVal 8 r : ℚ))
      else none
    else if c0 = '0' && (c1 = 'b' || c1 = 'B') then
      if !r.isEmpty && r.all (fun c => c = '0' || c = '1') then some ((radixVal 2 r : ℚ))
      else none
    else decFull (c0 :: c1 :: r)
  | _ => decFull l

/-- `Number(string)`: trim, empty string is `0`, otherwise a full-string
numeric literal; NaN is `none`. -/
def jsNumberOpt (s : String) : Option ℚ :=
  let t := trimList s.data
  if t.isEmpty then some 0 else parseNumFull t

/-- `Number.parseInt(s, 10)` digit-prefix core: a leading digit run (the
call site only ever passes strings of digits and minus signs, so no
whitespace skipping is needed). -/
def intCore (m : List Char) : Option ℤ :=
  let ds := m.takeWhile Char.isDigit
  if ds.isEmpty then none else some ((digitsVal ds : ℤ))

/-- Sign handling of `parseInt`. -/
def parseIntPrefix (l : List Char) : Option ℤ :=
  match l with
  | [] => none
  | c :: r =>
    if c = '-' then (intCore r).map Neg.neg
    else if c = '+' then intCore r
    else intCore (c :: r)

/-- `toTripCount` from `route.ts`: strip every character that is not a
digit or a minus sign, parse as a base-10 integer, default 0. -/
def toTripCount (s : String) : ℤ :=
  match parseIntPrefix (s.data.filter (fun c => c.isDigit || c = '-')) with
  | some z => z
  | none => 0

/-! ### The `KM_MATCHER` regex `[-+]?[0-9]*\.?[0-9]+` -/

/-- Body of a `KM_MATCHER` attempt after the optional sign `sgn`, with
the regex's greedy-then-backtrack semantics resolved: a digit run, then
either a dot followed by a non-empty digit run, or (if the dot is not
followed by a digit) just the digit run. -/
def kmBody (sgn rest : List Char) : Option (List Char) :=
  let d1 := rest.takeWhile Char.isDigit
  let r1 := rest.dropWhile Char.isDigit
  match r1 with
  | c :: r2 =>
    if c = '.' then
      let d2 := r2.takeWhile Char.isDigit
      if !d2.isEmpty then some (sgn ++ d1 ++ '.' :: d2)
      else if !d1.isEmpty then some (sgn ++ d1)
      else none
    else if !d1.isEmpty then some (sgn ++ d1) else none
  | [] => if !d1.isEmpty then some (sgn ++ d1) else none

/-- `KM_MATCHER` attempt at one position: optional sign then `kmBody`. -/
def kmMatchAt (l : List Char) : Option (List Char) :=
  match l with
  | [] => none
  | c :: t =>
    if c = '+' || c = '-' then kmBody [c] t
    else kmBody [] (c :: t)

/-- First (leftmost) `KM_MATCHER` match in `l`, as
`String.prototype.match` without the global flag returns it. -/
def kmFirstMatch : List Char → Option (List Char)
  | [] => none
  | c :: t =>
    match kmMatchAt (c :: t) with
    | some m => some m
    | none => kmFirstMatch t

/-! ### `toFixed(2)` and the distance normaliser -/

/-- Magnitude of `q` rounded to hundredths, ties away from zero —
`Number.prototype.toFixed(2)` picks the larger candidate on ties for the
(sign-stripped) magnitude. -/
def round2mag (q : ℚ) : ℕ :=
  (Int.floor (100 * |q| + 1 / 2)).toNat

/-- `q.toFixed(2)` in the rational model (magnitudes below 1e21, which is
all the sources ever format). -/
def jsToFixed2 (q : ℚ) : String :=
  (if q < 0 then "-" else "") ++
    natStr (round2mag q / 100) ++ "." ++ padStart2 (natStr (round2mag q % 100))

/-- `Number(q.toFixed(2))` as an exact rational. -/
def jsRound2 (q : ℚ) : ℚ :=
  (if q < 0 then -1 else 1) * (round2mag q : ℚ) / 100

/-- `toDistanceString` from `route.ts`: first `KM_MATCHER` match,
`parseFloat`, format `"{num.toFixed(2)} km"`, defaulting to `"0 km"`. -/
def toDistanceString (s : String) : String :=
  match kmFirstMatch s.data with
  | none => "0 km"
  | some m =>
    match parseFloatQ ⟨m⟩ with
    | none => "0 km"
    | some q => jsToFixed2 q ++ " km"

/-- `parseDistance` from `generate/route.ts`: first `KM_MATCHER` match,
`parseFloat`, NaN and the empty string give 0. -/
def parseDistance (s : String) : ℚ :=
  if s = "" then 0
  else
    match kmFirstMatch s.data with
    | none => 0
    | some m =>
      match parseFloatQ ⟨m⟩ with
      | some q => q
      | none => 0

/-! ### Calendar model -/

/-- A civil (proleptic Gregorian) date; `month0` is the JavaScript-style
0-based month. -/
structure Ymd where
  year : ℤ
  month0 : ℕ
  day : ℕ
deriving DecidableEq, Repr

/-- Proleptic Gregorian leap year, as ECMAScript `DaysInYear` defines. -/
def isLeapYear (y : ℤ) : Bool :=
  (y % 4 = 0 && ¬ y % 100 = 0) || y % 400 = 0

/-- Days in 0-based month `m` of year `y`. -/
def daysInMonth0 (y : ℤ) (m : ℕ) : ℕ :=
  [31, if isLeapYear y then 29 else 28, 31, 30, 31, 30, 31, 31, 30, 31, 30, 31].getD m 0

/-- Walk a (possibly negative) day offset `k` from the first day of the
absolute month `mTotal` (`= year * 12 + month0`), normalising through the
calendar.  `fuel` bounds the recursion; `jsMakeDate` supplies enough. -/
def walkDay : ℕ → ℤ → ℤ → Ymd
  | 0, _, _ => ⟨0, 0, 1⟩
  | fuel + 1, mTotal, k =>
    if k < 0 then
      walkDay fuel (mTotal - 1)
        (k + daysInMonth0 ((mTotal - 1).ediv 12) ((mTotal - 1).emod 12).toNat)
    else
      let dim := daysInMonth0 (mTotal.ediv 12) (mTotal.emod 12).toNat
      if k < (dim : ℤ) then ⟨mTotal.ediv 12, (mTotal.emod 12).toNat, k.toNat + 1⟩
      else walkDay fuel (mTotal + 1) (k - dim)

/-- `new Date(year, month, day)` (local-calendar components): ECMAScript
`MakeDay` month/day normalisation on the proleptic Gregorian calendar. -/
def jsMakeDate (y m d : ℤ) : Ymd :=
  walkDay (d.natAbs + 4) (y * 12 + m) (d - 1)

/-- `fmtDate` from `report-pdf.ts`: `DD-MM-YYYY` with zero-padded day and
month and the year printed as `String(getFullYear())`. -/
def fmtDate (d : Ymd) : String :=
  pad2Nat d.day ++ "-" ++ pad2Nat (d.month0 + 1) ++ "-" ++ intStr d.year

/-- Civil date from a day number (days since 1970-01-01); the classic
era-decomposition algorithm, used only to model `getUTC*` of a
millisecond timestamp. -/
def civilFromDays (z0 : ℤ) : Ymd :=
  let z := z0 + 719468
  let era := z.fdiv 146097
  let doe := (z - era * 146097).toNat
  let yoe := (doe - doe / 1460 + doe / 36524 - doe / 146096) / 365
  let y : ℤ := (yoe : ℤ) + era * 400
  let doy := doe - (365 * yoe + yoe / 4 - yoe / 100)
  let mp := (5 * doy + 2) / 153
  let d := doy - (153 * mp + 2) / 5 + 1
  let m := if mp < 10 then mp + 3 else mp - 9
  ⟨if m ≤ 2 then y + 1 else y, m - 1, d⟩

/-- Truncation toward zero (`ToIntegerOrInfinity`). -/
def qTrunc (q : ℚ) : ℤ :=
  if q < 0 then Int.ceil q else Int.floor q

/-- `Date.UTC(1899, 11, 30)` in milliseconds: the spreadsheet epoch. -/
def excelEpochMs : ℤ := -2209161600000

/-- Milliseconds per day. -/
def msPerDay : ℤ := 86400000

/-- The Excel-serial branch of `normaliseDate`: build
`new Date(epoch + serial * 86400000)` and format its UTC components.  A
time value outside the ±8.64e15 ms ECMAScript range gives an invalid
date, whose components print as `"NaN"`. -/
def excelBranch (q : ℚ) : String :=
  let ms : ℚ := (excelEpochMs : ℚ) + q * (msPerDay : ℚ)
  if 8640000000000000 < |ms| then "NaN-NaN-NaN"
  else
    let d := civilFromDays ((qTrunc ms).fdiv msPerDay)
    pad2Nat d.day ++ "-" ++ pad2Nat (d.month0 + 1) ++ "-" ++ intStr d.year

/-! ### `normaliseDate` (route.ts) -/

/-- The anchored day-month-year regex of `normaliseDate` (one or two
digits, a dash or slash separator, one or two digits, a separator, then
two to four digits), with its backtracking resolved: each digit group is
a maximal digit run of the admissible length and the year run must end
the string. -/
def dmyMatch (l : List Char) : Option (List Char × List Char × List Char) :=
  let d1 := l.takeWhile Char.isDigit
  let r1 := l.dropWhile Char.isDigit
  if d1.length < 1 || 2 < d1.length then none
  else
    match r1 with
    | s1 :: r2 =>
      if s1 = '-' || s1 = '/' then
        let d2 := r2.takeWhile Char.isDigit
        let r3 := r2.dropWhile Char.isDigit
        if d2.length < 1 || 2 < d2.length then none
        else
          match r3 with
          | s2 :: r4 =>
            if s2 = '-' || s2 = '/' then
              let d3 := r4.takeWhile Char.isDigit
              let r5 := r4.dropWhile Char.isDigit
              if 2 ≤ d3.length && d3.length ≤ 4 && r5.isEmpty then some (d1, d2, d3)
              else none
            else none
          | [] => none
      else none
    | [] => none

/-- The anchored regex `^(\d{4})-(\d{1,2})-(\d{1,2})$`. -/
def isoMatch (l : List Char) : Option (List Char × List Char × List Char) :=
  let ys := l.takeWhile Char.isDigit
  let r1 := l.dropWhile Char.isDigit
  if ys.length ≠ 4 then none
  else
    match r1 with
    | c1 :: r2 =>
      if c1 = '-' then
        let ms := r2.takeWhile Char.isDigit
        let r3 := r2.dropWhile Char.isDigit
        if ms.length < 1 || 2 < ms.length then none
        else
          match r3 with
          | c2 :: r4 =>
            if c2 = '-' then
              let ds := r4.takeWhile Char.isDigit
              let r5 := r4.dropWhile Char.isDigit
              if 1 ≤ ds.length && ds.length ≤ 2 && r5.isEmpty then some (ys, ms, ds)
              else none
            else none
          | [] => none
      else none
    | [] => none

/-- Two-digit year expansion: `Number(year) >= 70 ? "19"+year : "20"+year`
(a longer year string is kept verbatim). -/
def yearFix (y : String) : String :=
  if y.length = 2 then
    if 70 ≤ digitsVal y.data then "19" ++ y else "20" ++ y
  else y

/-- Characters admissible in an ECMAScript Date Time String Format
string.  A conformant string uses no other character, so the guard in
`jsDateFallback` does not change the accepted language. -/
def dtsfChar (c : Char) : Bool :=
  c.isDigit || c = '-' || c = 'T' || c = ':' || c = '.' || c = 'Z' || c = '+'

/-- Time-zone offset suffix: empty, `Z`, or `±HH:mm`. -/
def offsetOK (l : List Char) : Bool :=
  match l with
  | [] => true
  | c :: r =>
    if c = 'Z' then r.isEmpty
    else if c = '+' || c = '-' then
      let hh := r.takeWhile Char.isDigit
      let r2 := r.dropWhile Char.isDigit
      hh.length = 2 && digitsVal hh ≤ 23 &&
        (match r2 with
         | c2 :: r3 =>
           c2 = ':' &&
             (let mm := r3.takeWhile Char.isDigit
              mm.length = 2 && digitsVal mm ≤ 59 && (r3.dropWhile Char.isDigit).isEmpty)
         | [] => false)
    else false

/-- Optional fractional-second part before the offset. -/
def secFracOK (l : List Char) : Bool :=
  match l with
  | c :: r =>
    if c = '.' then
      let ds := r.takeWhile Char.isDigit
      !ds.isEmpty && ds.length ≤ 3 && offsetOK (r.dropWhile Char.isDigit)
    else offsetOK (c :: r)
  | [] => offsetOK []

/-- Optional `:ss` part. -/
def secOK (l : List Char) : Bool :=
  match l with
  | c :: r =>
    if c = ':' then
      let ss := r.takeWhile Char.isDigit
      ss.length = 2 && digitsVal ss ≤ 59 && secFracOK (r.dropWhile Char.isDigit)
    else offsetOK (c :: r)
  | [] => offsetOK []

/-- `THH:mm[:ss[.f]][offset]` shape check. -/
def timeShapeOK (l : List Char) : Bool :=
  let hh := l.takeWhile Char.isDigit
  let r1 := l.dropWhile Char.isDigit
  hh.length = 2 && digitsVal hh ≤ 24 &&
    (match r1 with
     | c :: r2 =>
       c = ':' &&
         (let mm := r2.takeWhile Char.isDigit
          let r3 := r2.dropWhile Char.isDigit
          mm.length = 2 && digitsVal mm ≤ 59 && secOK r3)
     | [] => false)

/-- The `new Date(raw)` native fallback of `normaliseDate`, modelled by
the normative ECMAScript Date Time String Format
(`YYYY[-MM[-DD]][THH:mm...]`): implementation-specific heuristic formats
beyond the standard are not modelled, and time/zone components are
checked for shape but do not shift the date (local-time conversion is
not modelled). -/
def jsDateFallback (s : String) : Option Ymd :=
  let l := s.data
  if !l.all dtsfChar then none
  else
    let ys := l.takeWhile Char.isDigit
    let r := l.dropWhile Char.isDigit
    if ys.length ≠ 4 then none
    else
      let y : ℤ := (digitsVal ys : ℤ)
      match r with
      | [] => some ⟨y, 0, 1⟩
      | c1 :: r2 =>
        if c1 = 'T' then (if timeShapeOK r2 then some ⟨y, 0, 1⟩ else none)
        else if c1 = '-' then
          let ms := r2.takeWhile Char.isDigit
          let r3 := r2.dropWhile Char.isDigit
          if ms.length ≠ 2 then none
          else
            let m := digitsVal ms
            if m < 1 || 12 < m then none
            else
              match r3 with
              | [] => some ⟨y, m - 1, 1⟩
              | c2 :: r4 =>
                if c2 = 'T' then (if timeShapeOK r4 then some ⟨y, m - 1, 1⟩ else none)
                else if c2 = '-' then
                  let ds := r4.takeWhile Char.isDigit
                  let r5 := r4.dropWhile Char.isDigit
                  if ds.length ≠ 2 then none
                  else
                    let d := digitsVal ds
                    if d < 1 || daysInMonth0 y (m - 1) < d then none
                    else
                      match r5 with
                      | [] => some ⟨y, m - 1, d⟩
                      | c3 :: r6 =>
                        if c3 = 'T' then
                          (if timeShapeOK r6 then some ⟨y, m - 1, d⟩ else none)
                        else none
                else none
        else none

/-- The branches of `normaliseDate` that follow the Excel-serial check:
`DD-MM-YYYY`/`DD/MM/YYYY`, ISO `YYYY-MM-DD`, then the native fallback. -/
def normaliseDateTail (raw : String) : Option String :=
  match dmyMatch raw.data with
  | some (d, m, y) =>
    some (padStart2 ⟨d⟩ ++ "-" ++ padStart2 ⟨m⟩ ++ "-" ++ yearFix ⟨y⟩)
  | none =>
    match isoMatch raw.data with
    | some (y, m, d) =>
      some (padStart2 ⟨d⟩ ++ "-" ++ padStart2 ⟨m⟩ ++ "-" ++ (⟨y⟩ : String))
    | none =>
      match jsDateFallback raw with
      | some d => some (pad2Nat d.day ++ "-" ++ pad2Nat (d.month0 + 1) ++ "-" ++ intStr d.year)
      | none => none

/-- `normaliseDate` from `route.ts` on an already-trimmed string: empty
and range strings (`" - "`) are rejected; short numeric strings are
Excel serials; then the explicit patterns and the native fallback. -/
def normaliseDateRaw (raw : String) : Option String :=
  if raw = "" then none
  else if hasSub raw " - " then none
  else
    match jsNumberOpt raw with
    | some q => if raw.length ≤ 5 then some (excelBranch q) else normaliseDateTail raw
    | none => normaliseDateTail raw

/-- `normaliseDate` from `route.ts` on a string input (`!input` rejects
the empty string; the `Date`-instance branch does not arise for string
inputs). -/
def normaliseDate (s : String) : Option String :=
  if s = "" then none else normaliseDateRaw (jsTrim s)

/-! ### The renderer (`report-pdf.ts`) -/

/-- A stored report row (`Row` in `report-pdf.ts` / `ParsedRow` in
`route.ts`; the two type aliases list the same fields). -/
structure TripRow where
  vehicleNo : String
  area : String
  tankerType : String
  transporterName : String
  reportDate : String
  tripDistanceKm : String
  tripCount : ℤ
deriving DecidableEq, Repr

/-- `parseFloat` with the renderer's `Number.isFinite` guard: a
non-finite parse contributes 0. -/
def parsedOr0 (s : String) : ℚ :=
  match parseFloatQ s with
  | some q => q
  | none => 0

/-- The renderer's `totalKm` accumulator (before `toFixed(2)`). -/
def rendererKmSum (rows : List TripRow) : ℚ :=
  rows.foldl (fun a r => a + parsedOr0 r.tripDistanceKm) 0

/-- The renderer's `totalKm` string (`.toFixed(2)`). -/
def totalKmStr (rows : List TripRow) : String :=
  jsToFixed2 (rendererKmSum rows)

/-- The renderer's `totalTrips` accumulator. -/
def rendererTripSum (rows : List TripRow) : ℤ :=
  rows.foldl (fun a r => a + r.tripCount) 0

/-- `Math.max(1, Math.ceil(n / ROWS_PER_PAGE))` with
`ROWS_PER_PAGE = 21`. -/
def totalPagesOf (n : ℕ) : ℕ :=
  max 1 ((n + 21 - 1) / 21)

/-- Background fill of the data row with global index `g`. -/
def rowBg (g : ℕ) : String :=
  if g % 2 = 0 then "#ffffff" else "#f5f5f5"

/-- Layout of one rendered page, as the page loop of `buildReportPdf`
draws it. -/
structure PageSpec where
  pageIndex : ℕ
  isFirstPage : Bool
  hasSubHeader : Bool
  startIndex : ℕ
  pageRows : List TripRow
  rowBgs : List String
  footerPageText : String
deriving DecidableEq, Repr

/-- The page loop of `buildReportPdf`: one `PageSpec` per page; page `i`
draws `rows.slice(21 i, 21 i + 21)` with backgrounds indexed by global
row index, the first-page header exactly on page 0, and the sub-header
exactly on page 0 when there is at least one row. -/
def buildPages (rows : List TripRow) : List PageSpec :=
  (List.range (totalPagesOf rows.length)).map fun i =>
    let start := i * 21
    let slice := (rows.drop start).take 21
    { pageIndex := i
      isFirstPage := decide (i = 0)
      hasSubHeader := decide (i = 0) && decide (0 < rows.length)
      startIndex := start
      pageRows := slice
      rowBgs := (List.range slice.length).map (fun o => rowBg (start + o))
      footerPageText := "Page " ++ natStr (i + 1) ++ " of " ++ natStr (totalPagesOf rows.length) }

/-- The first-page title line of `drawFirstPageHeader`, range expanded to
whole calendar months by the two `new Date(...)` constructions. -/
def titleLine (title : String) (dateFrom dateTo : Ymd) : String :=
  let rangeStart := jsMakeDate dateFrom.year (dateFrom.month0 : ℤ) 1
  let rangeEnd := jsMakeDate dateTo.year ((dateTo.month0 : ℤ) + 1) 0
  title ++ " (From: " ++ fmtDate rangeStart ++ " To: " ++ fmtDate rangeEnd ++ " )"

/-- The sub-header band cells of `drawTableHeader` (first page, non-empty
rows): representative first-row fields, the literal request range, the
distance total and the trip-count total. -/
def subHeaderCells (dateFrom dateTo : Ymd) (rows : List TripRow) : List String :=
  [ "",
    (rows.head?.map (·.area)).getD "",
    (rows.head?.map (·.vehicleNo)).getD "",
    (rows.head?.map (·.tankerType)).getD "",
    (rows.head?.map (·.transporterName)).getD "",
    fmtDate dateFrom ++ " - " ++ fmtDate dateTo,
    totalKmStr rows ++ " km",
    intStr (rendererTripSum rows) ]

/-! ### The workbook ingester (`parseWorkbook` in `route.ts`) -/

/-- Header normalisation: lower-case then strip every character that is
not an ASCII letter or digit. -/
def normalizeHeaderS (s : String) : String :=
  ⟨s.data.filterMap (fun c =>
    let lc := if 'A' ≤ c && c ≤ 'Z' then Char.ofNat (c.toNat + 32) else c
    if ('a' ≤ lc && lc ≤ 'z') || lc.isDigit then some lc else none)⟩

/-- `findColumn`: first candidate label whose normalisation matches some
header cell; `-1` when none does. -/
def findColumn (row : List String) : List String → ℤ
  | [] => -1
  | c :: cs =>
    match row.findIdx? (fun h => normalizeHeaderS h = normalizeHeaderS c) with
    | some i => (i : ℤ)
    | none => findColumn row cs

/-- `getCell`: out-of-range indices give the empty string (sheet rows are
dense, `sheet_to_json` fills gaps with `defval: ""`). -/
def getCellD (row : List String) (i : ℤ) : String :=
  if i < 0 then "" else row.getD i.toNat ""

/-- The column-index map captured from the header row. -/
structure ColIdx where
  vehicle : ℤ
  area : ℤ
  tankerType : ℤ
  transporter : ℤ
  reportDate : ℤ
  distance : ℤ
  tripCount : ℤ
deriving DecidableEq, Repr

/-- Carry-forward attributes captured from a context (range/summary)
row. -/
structure CarryCtx where
  vehicleNo : String
  area : String
  tankerType : String
  transporterName : String
deriving DecidableEq, Repr

/-- Scan state threaded through the per-sheet row loop. -/
structure ScanState where
  colIdx : Option ColIdx
  ctx : Option CarryCtx
  records : List TripRow
deriving DecidableEq, Repr

/-- Initial scan state of a sheet. -/
def initScan : ScanState := ⟨none, none, []⟩

/-- Column discovery on a detected header row, with the trip-count
fallback to the last column. -/
def headerCols (row : List String) : ColIdx :=
  let t := findColumn row ["Trip Count", "Trips", "Trip"]
  { vehicle := findColumn row ["Vehicle No.", "Vehicle No", "Vehicle Number"]
    area := findColumn row ["Area"]
    tankerType := findColumn row ["Tanker Type", "Type"]
    transporter := findColumn row ["Transporter Name", "Transporter"]
    reportDate := findColumn row ["Report Date", "Date"]
    distance := findColumn row ["Trip Distance / Engine Hr", "Trip Distance / Engine",
                                "Trip Distance", "Distance"]
    tripCount := if t = -1 then (row.length : ℤ) - 1 else t }

/-- JavaScript `a || b` on strings (the empty string is the only falsy
string). -/
def jsOrS (a b : String) : String :=
  if a = "" then b else a

/-- The report-date cell of a data row (`row[columnIndex.reportDate]`,
guarded by the `!== -1` check). -/
def rdRawOf (ci : ColIdx) (row : List String) : String :=
  if ci.reportDate = -1 then "" else getCellD row ci.reportDate

/-- The carry-forward attributes captured from a context row. -/
def contextOf (ci : ColIdx) (row : List String) : CarryCtx :=
  ⟨getCellD row ci.vehicle, getCellD row ci.area,
   getCellD row ci.tankerType, getCellD row ci.transporter⟩

/-- `context?.field || ""` accessors. -/
def ctxVeh : Option CarryCtx → String
  | some c => c.vehicleNo
  | none => ""

def ctxArea : Option CarryCtx → String
  | some c => c.area
  | none => ""

def ctxTank : Option CarryCtx → String
  | some c => c.tankerType
  | none => ""

def ctxTrans : Option CarryCtx → String
  | some c => c.transporterName
  | none => ""

/-- The `TripRecord` built for a data row: each descriptive cell falls
back to the carry-forward context when blank. -/
def dataRecord (ci : ColIdx) (ctx : Option CarryCtx) (row : List String) (rd : String) :
    TripRow :=
  { vehicleNo := jsOrS (getCellD row ci.vehicle) (ctxVeh ctx)
    area := jsOrS (getCellD row ci.area) (ctxArea ctx)
    tankerType := jsOrS (getCellD row ci.tankerType) (ctxTank ctx)
    transporterName := jsOrS (getCellD row ci.transporter) (ctxTrans ctx)
    reportDate := rd
    tripDistanceKm := toDistanceString (getCellD row ci.distance)
    tripCount := toTripCount (getCellD row ci.tripCount) }

/-- One iteration of the row loop of `parseWorkbook`: header search,
blank-row and repeated-header skips, the context-row branch, date
normalisation, carry-forward fallback and the record push. -/
def stepRow (st : ScanState) (rawRow : List String) : ScanState :=
  let row := rawRow.map jsTrim
  match st.colIdx with
  | none =>
    let joined := row.map normalizeHeaderS
    if joined.contains (normalizeHeaderS "Vehicle No") &&
       joined.contains (normalizeHeaderS "Report Date") then
      { st with colIdx := some (headerCols row) }
    else st
  | some ci =>
    if row.all (fun c => c = "") then st
    else if normalizeHeaderS (rdRawOf ci row) = normalizeHeaderS "Report Date" then st
    else if hasSub (rdRawOf ci row) " - " then
      { st with ctx := some (contextOf ci row) }
    else
      match normaliseDate (rdRawOf ci row) with
      | none => st
      | some rd =>
        if (dataRecord ci st.ctx row rd).vehicleNo = "" then st
        else { st with records := st.records ++ [dataRecord ci st.ctx row rd] }

/-- Final scan state of one sheet. -/
def scanSheet (sheet : List (List String)) : ScanState :=
  sheet.foldl stepRow initScan

/-- Records emitted for one sheet. -/
def parseSheet (sheet : List (List String)) : List TripRow :=
  (scanSheet sheet).records

/-- `parseWorkbook`: all sheets in order, each scanned with fresh
state. -/
def parseWorkbookRows (sheets : List (List (List String))) : List TripRow :=
  (sheets.map parseSheet).flatten

/-! ### The verification summary (`buildSummary` in `generate/route.ts`) -/

/-- Per-vehicle accumulator entry of `buildSummary`. -/
structure VehEntry where
  area : String
  tankerType : String
  transporterName : String
  totalDistance : ℚ
  totalTrips : ℤ
deriving DecidableEq, Repr

/-- Add one row into the insertion-ordered association list that models
the `Map`: an existing key is updated in place, a new key is appended
with the row's descriptive fields. -/
def addVeh : List (String × VehEntry) → String → ℚ → ℤ → TripRow → List (String × VehEntry)
  | [], k, dist, trips, r => [(k, ⟨r.area, r.tankerType, r.transporterName, dist, trips⟩)]
  | (k', e) :: rest, k, dist, trips, r =>
    if k' = k then
      (k', { e with totalDistance := e.totalDistance + dist,
                    totalTrips := e.totalTrips + trips }) :: rest
    else (k', e) :: addVeh rest k dist trips r

/-- The `vehicleMap` after folding all rows. -/
def summaryFold (rows : List TripRow) : List (String × VehEntry) :=
  rows.foldl (fun acc r => addVeh acc r.vehicleNo (parseDistance r.tripDistanceKm) r.tripCount r) []

/-- `Number(x.toFixed(2))`. -/
def summaryRound (q : ℚ) : ℚ :=
  (jsNumberOpt (jsToFixed2 q)).getD 0

/-- One `vehicleReports` element. -/
structure VehReport where
  vehicleNumber : String
  area : String
  tankerType : String
  transporterName : String
  totalDistance : ℚ
  totalTrips : ℤ
deriving DecidableEq, Repr

/-- The summary persisted alongside a generated PDF. -/
structure Summary where
  vehicleReports : List VehReport
  totalDistance : ℚ
  totalTrips : ℤ
deriving DecidableEq, Repr

/-- `buildSummary`: per-vehicle totals (each distance rounded through
`toFixed(2)`), then grand totals (distance rounded again). -/
def buildSummary (rows : List TripRow) : Summary :=
  let reports := (summaryFold rows).map (fun p =>
    ({ vehicleNumber := p.1, area := p.2.area, tankerType := p.2.tankerType,
       transporterName := p.2.transporterName,
       totalDistance := summaryRound p.2.totalDistance,
       totalTrips := p.2.totalTrips } : VehReport))
  { vehicleReports := reports
    totalDistance := summaryRound (reports.foldl (fun a v => a + v.totalDistance) 0)
    totalTrips := reports.foldl (fun a v => a + v.totalTrips) 0 }

/-! ### The other write paths of the report store (`route.ts`) -/

/-- A raw inbound record (JSON fields coerced to strings, as the handler
does with `String(...)` / normaliser string coercions). -/
structure RawRecord where
  vehicleNo : String
  area : String
  tankerType : String
  transporterName : String
  reportDate : String
  tripDistanceKm : String
  tripCount : String
deriving DecidableEq, Repr

/-- The manual single-record POST path: trim the descriptive fields,
normalise date/distance/count, reject a missing vehicle or date. -/
def postSingle (r : RawRecord) : Option TripRow :=
  let nr : TripRow :=
    { vehicleNo := jsTrim r.vehicleNo
      area := jsTrim r.area
      tankerType := jsTrim r.tankerType
      transporterName := jsTrim r.transporterName
      reportDate := (normaliseDate r.reportDate).getD ""
      tripDistanceKm := toDistanceString r.tripDistanceKm
      tripCount := toTripCount r.tripCount }
  if nr.vehicleNo = "" then none
  else if nr.reportDate = "" then none
  else some nr

/-- The batch JSON POST path: normalise each record, then keep those with
a truthy (non-empty) normalised date. -/
def postBatch (rs : List RawRecord) : List TripRow :=
  (rs.map (fun r =>
    ({ vehicleNo := r.vehicleNo
       area := r.area
       tankerType := r.tankerType
       transporterName := r.transporterName
       reportDate := (normaliseDate r.reportDate).getD ""
       tripDistanceKm := toDistanceString r.tripDistanceKm
       tripCount := toTripCount r.tripCount } : TripRow))).filter
    (fun r => r.reportDate != "")

/-- A PATCH body: absent fields fall back to the existing record. -/
structure PatchInput where
  vehicleNo : Option String
  area : Option String
  tankerType : Option String
  transporterName : Option String
  reportDate : Option String
  tripDistanceKm : Option String
  tripCount : Option String
deriving DecidableEq, Repr

/-- The PATCH path: merge with the existing record, re-normalising every
normalised field; a date that fails normalisation rejects the update. -/
def patchModel (p : PatchInput) (existing : TripRow) : Option TripRow :=
  match normaliseDate (p.reportDate.getD existing.reportDate) with
  | none => none
  | some nd =>
    some { vehicleNo := jsTrim (p.vehicleNo.getD existing.vehicleNo)
           area := jsTrim (p.area.getD existing.area)
           tankerType := jsTrim (p.tankerType.getD existing.tankerType)
           transporterName := jsTrim (p.transporterName.getD existing.transporterName)
           reportDate := nd
           tripDistanceKm := toDistanceString (p.tripDistanceKm.getD existing.tripDistanceKm)
           tripCount := toTripCount (p.tripCount.getD (intStr existing.tripCount)) }

/-- The spec's canonical stored-date shape: zero-padded `DD-MM-YYYY`
with a four-digit year. -/
def isCanonDDMMYYYY (s : String) : Bool :=
  match s.data with
  | [d1, d2, '-', m1, m2, '-', y1, y2, y3, y4] =>
    d1.isDigit && d2.isDigit && m1.isDigit && m2.isDigit &&
      y1.isDigit && y2.isDigit && y3.isDigit && y4.isDigit
  | _ => false

/-- Specification-side lenient distance total: the sum over rows of the
leniently parsed numeric distance, unparseable entries contributing 0. -/
def specDistanceSum (rows : List TripRow) : ℚ :=
  (rows.map (fun r => parsedOr0 r.tripDistanceKm)).sum

/-- A demonstration row used by concrete witnesses. -/
def demoRow : TripRow :=
  ⟨"V", "A", "T", "N", "01-07-2025", "0 km", 0⟩

/-- The three-row distance example of the specification. -/
def rowsC5 : List TripRow :=
  [⟨"V1", "A", "T", "N", "01-07-2025", "12.50 km", 2⟩,
   ⟨"V2", "A", "T", "N", "02-07-2025", "not a number", 1⟩,
   ⟨"V3", "A", "T", "N", "03-07-2025", "7.5", 0⟩]

/-- The amended stored-record invariant: each persisted field is the
image of its normaliser, with a non-empty normalised date. -/
def NormalisedStored (r : TripRow) : Prop :=
  (∃ x, normaliseDate x = some r.reportDate) ∧ r.reportDate ≠ ""
  ∧ (∃ v, r.tripDistanceKm = toDistanceString v)
  ∧ (∃ c, r.tripCount = toTripCount c)

/-- The concrete carry-forward example sheet of the specification:
header row, a context row for `DL1AB1234` / `North`, then a data row
with blank descriptive cells. -/
def sheetC3 : List (List String) :=
  [["Area", "Vehicle No.", "Tanker Type", "Transporter Name", "Report Date",
    "Trip Distance / Engine Hr", "Trip Count"],
   ["North", "DL1AB1234", "Oil", "ACME", "01-07-2025 - 31-07-2025", "100", "5"],
   ["", "", "", "", "05-07-2025", "12.5", "2"]]

/-- The column map captured from `sheetC3`'s header row. -/
def ciC3 : ColIdx := ⟨1, 0, 2, 3, 4, 5, 6⟩

/-- The carry-forward context captured from `sheetC3`'s context row. -/
def ctxC3 : CarryCtx := ⟨"DL1AB1234", "North", "Oil", "ACME"⟩

/-- The distances appearing in this code base are all integral multiples
of a hundredth (the `toFixed(2)` grid). -/
def Centi (q : ℚ) : Prop := ∃ z : ℤ, q = (z : ℚ) / 100

/-- Total of the per-vehicle distance accumulators of the `vehicleMap`
model. -/
def sumEntries (acc : List (String × VehEntry)) : ℚ :=
  (acc.map (fun p => p.2.totalDistance)).sum

/-- A three-vehicle stored-row example (all distances written by
`toDistanceString`). -/
def rowsC6 : List TripRow :=
  [⟨"V1", "A", "T", "N", "01-07-2025", "12.50 km", 2⟩,
   ⟨"V1", "A", "T", "N", "02-07-2025", "7.50 km", 1⟩,
   ⟨"V2", "B", "T", "N", "01-07-2025", "0 km", 0⟩]

/-! ### General lemmas -/

theorem foldl_add_sum {α β : Type} [AddMonoid β] (f : α → β) :
    ∀ (l : List α) (a : β), l.foldl (fun acc r => acc + f r) a = a + (l.map f).sum := by
  intro l
  induction l with
  | nil => simp
  | cons x t ih => intro a; simp [ih, add_assoc]

/-! ### Claims -/

/-- Claim C1: for every row list, `buildReportPdf` produces
`max(1, ceil(rows.length / 21))` pages (so lengths 0, 1, 21, 22, 42, 43
give 1, 1, 1, 2, 2, 3 pages), no page holds more than 21 data rows, page
`i` holds exactly `rows[21 i .. 21 i + 20]` in order, row backgrounds
alternate by global index (even white, odd light gray), and the rows at
global indices 20 and 21 — across the page-1/page-2 boundary — have
different backgrounds. -/
theorem claim1_pagination (rows : List TripRow) :
    (buildPages rows).length = max 1 ((rows.length + 20) / 21)
    ∧ (rows.length = 0 → (buildPages rows).length = 1)
    ∧ (rows.length = 1 → (buildPages rows).length = 1)
    ∧ (rows.length = 21 → (buildPages rows).length = 1)
    ∧ (rows.length = 22 → (buildPages rows).length = 2)
    ∧ (rows.length = 42 → (buildPages rows).length = 2)
    ∧ (rows.length = 43 → (buildPages rows).length = 3)
    ∧ (∀ p ∈ buildPages rows,
        p.pageRows.length ≤ 21
        ∧ p.pageRows = (rows.drop (21 * p.pageIndex)).take 21
        ∧ p.rowBgs = (List.range p.pageRows.length).map (fun o => rowBg (21 * p.pageIndex + o)))
    ∧ (∀ g, rowBg g = if g % 2 = 0 then "#ffffff" else "#f5f5f5")
    ∧ rowBg 20 ≠ rowBg 21 := by
  have hlen : (buildPages rows).length = max 1 ((rows.length + 20) / 21) := by
    simp only [buildPages, List.length_map, List.length_range, totalPagesOf]
    omega
  refine ⟨hlen, ?_, ?_, ?_, ?_, ?_, ?_, ?_, fun g => rfl, by decide⟩
  · intro h; rw [hlen, h]; decide
  · intro h; rw [hlen, h]; decide
  · intro h; rw [hlen, h]; decide
  · intro h; rw [hlen, h]; decide
  · intro h; rw [hlen, h]; decide
  · intro h; rw [hlen, h]; decide
  · intro p hp
    rcases List.mem_map.1 hp with ⟨i, _, rfl⟩
    refine ⟨?_, ?_, ?_⟩
    · simp only [List.length_take]
      omega
    · simp [Nat.mul_comm]
    · simp [Nat.mul_comm]

/-- Witness for C1 at a concrete 22-row list. -/
theorem claim1_pagination_witness :
    (buildPages (List.replicate 22 demoRow)).length = 2 :=
  (claim1_pagination (List.replicate 22 demoRow)).2.2.2.2.1 (by simp)

/-- Claim C9: rendering zero rows still succeeds, producing exactly one
page that has the first-page header and footer but no sub-header band;
in general the sub-header is drawn exactly on the first page and only
when there is at least one row. -/
theorem claim9_empty_render :
    buildPages ([] : List TripRow) =
      [{ pageIndex := 0, isFirstPage := true, hasSubHeader := false, startIndex := 0,
         pageRows := [], rowBgs := [], footerPageText := "Page 1 of 1" }]
    ∧ (∀ (rows : List TripRow), ∀ p ∈ buildPages rows,
        (p.hasSubHeader = true ↔ p.pageIndex = 0 ∧ 0 < rows.length)) := by
  constructor
  · decide
  · intro rows p hp
    rcases List.mem_map.1 hp with ⟨i, _, rfl⟩
    simp

/-- Witness for C9: on a one-row list the first page does show the
sub-header. -/
theorem claim9_empty_render_witness :
    ({ pageIndex := 0, isFirstPage := true, hasSubHeader := true, startIndex := 0,
       pageRows := [demoRow], rowBgs := ["#ffffff"],
       footerPageText := "Page 1 of 1" } : PageSpec).hasSubHeader = true :=
  (claim9_empty_render.2 [demoRow]
    { pageIndex := 0, isFirstPage := true, hasSubHeader := true, startIndex := 0,
      pageRows := [demoRow], rowBgs := ["#ffffff"], footerPageText := "Page 1 of 1" }
    (by decide)).mpr ⟨rfl, by decide⟩

/-- Claim C5: the first-page sub-header distance cell is the lenient sum
of per-row parsed distances (unparseable entries contribute 0),
formatted to two decimals with a `km` suffix; the rows with distances
`"12.50 km"`, `"not a number"`, `"7.5"` total `"20.00 km"`. -/
theorem claim5_subheader_distance (dateFrom dateTo : Ymd) (rows : List TripRow) :
    (subHeaderCells dateFrom dateTo rows).getD 6 "" = jsToFixed2 (specDistanceSum rows) ++ " km"
    ∧ (subHeaderCells ⟨2025, 6, 1⟩ ⟨2025, 6, 31⟩ rowsC5).getD 6 "" = "20.00 km" := by
  constructor
  · show totalKmStr rows ++ " km" = _
    rw [totalKmStr, rendererKmSum, foldl_add_sum, specDistanceSum, zero_add]
  · decide

/-- A string is non-empty exactly when its character list is. -/
theorem str_ne_empty_iff (s : String) : s ≠ "" ↔ s.data ≠ [] := by
  rw [ne_eq, String.ext_iff]

/-- An append with a non-empty left part is non-empty. -/
theorem append_ne_empty_left (a b : String) (ha : a ≠ "") : a ++ b ≠ "" := by
  rw [str_ne_empty_iff] at ha ⊢
  rw [String.data_append]
  intro h
  exact ha (List.append_eq_nil.1 h).1

/-- `padStart2` never returns the empty string. -/
theorem padStart2_ne_empty (s : String) : padStart2 s ≠ "" := by
  unfold padStart2
  split
  · rename_i h
    rw [str_ne_empty_iff]
    intro hd
    rw [show s.length = s.data.length from rfl, hd] at h
    simp at h
  · split
    · exact append_ne_empty_left "0" s (by decide)
    · decide

/-- `pad2Nat` never returns the empty string. -/
theorem pad2Nat_ne_empty (n : ℕ) : pad2Nat n ≠ "" :=
  padStart2_ne_empty _

/-- Claim C7, counterexample: `toTripCount "-5"` is the negative integer
`-5`, violating the claimed `tripCount ≥ 0`. -/
theorem claim7_counterexample :
    toTripCount "-5" = -5 ∧ toTripCount "-5" < 0 := by
  decide

/-- Claim C7, amended: `toTripCount` strips every character other than
digits and minus, parses the remainder as a base-10 integer and returns
0 on failure or empty input; the result is an integer that is
non-negative whenever the raw input contains no minus sign (but may be
negative when it does, e.g. `"-5" ↦ -5`). -/
theorem claim7_amended (s : String) :
    ('-' ∉ s.data → 0 ≤ toTripCount s)
    ∧ (s.data.filter (fun c => c.isDigit || c = '-') = [] → toTripCount s = 0)
    ∧ toTripCount "" = 0 := by
  refine ⟨?_, ?_, by decide⟩
  · intro hmem
    unfold toTripCount
    cases hfl : s.data.filter (fun c => c.isDigit || c = '-') with
    | nil => simp [parseIntPrefix]
    | cons c t =>
      have hc : c.isDigit = true := by
        have hmemf : c ∈ s.data.filter (fun c => c.isDigit || c = '-') := by
          rw [hfl]; exact List.mem_cons_self c t
        have h2 := List.mem_filter.1 hmemf
        rcases Bool.or_eq_true_iff.1 h2.2 with h3 | h3
        · exact h3
        · exact absurd (of_decide_eq_true h3 ▸ h2.1) hmem
      have h1 : ¬ c = '-' := fun h => by rw [h] at hc; exact absurd hc (by decide)
      have h2 : ¬ c = '+' := fun h => by rw [h] at hc; exact absurd hc (by decide)
      have hds : (c :: t).takeWhile Char.isDigit = c :: t.takeWhile Char.isDigit := by
        simp [List.takeWhile_cons, hc]
      simp only [parseIntPrefix, if_neg h1, if_neg h2, intCore, hds]
      simp
  · intro hfl
    unfold toTripCount
    rw [hfl]
    simp [parseIntPrefix]

/-- Witness for the amended C7 at a concrete minus-free input. -/
theorem claim7_amended_witness : 0 ≤ toTripCount "12 trips" :=
  (claim7_amended "12 trips").1 (by decide)

/-- Every `some` result of `normaliseDate` is a non-empty string. -/
theorem normaliseDate_ne_empty (s v : String) (h : normaliseDate s = some v) : v ≠ "" := by
  unfold normaliseDate at h
  split at h
  · exact absurd h (by simp)
  · unfold normaliseDateRaw at h
    split at h
    · exact absurd h (by simp)
    · split at h
      · exact absurd h (by simp)
      · have tail : ∀ (raw : String), normaliseDateTail raw = some v → v ≠ "" := by
          intro raw ht
          unfold normaliseDateTail at ht
          split at ht
          · cases ht
            exact append_ne_empty_left _ _ (append_ne_empty_left _ _
              (append_ne_empty_left _ _ (append_ne_empty_left _ _ (padStart2_ne_empty _))))
          · split at ht
            · cases ht
              exact append_ne_empty_left _ _ (append_ne_empty_left _ _
                (append_ne_empty_left _ _ (append_ne_empty_left _ _ (padStart2_ne_empty _))))
            · split at ht
              · cases ht
                exact append_ne_empty_left _ _ (append_ne_empty_left _ _
                  (append_ne_empty_left _ _ (append_ne_empty_left _ _ (pad2Nat_ne_empty _))))
              · exact absurd ht (by simp)
        split at h
        · split at h
          · cases h
            simp only [excelBranch]
            split
            · decide
            · exact append_ne_empty_left _ _ (append_ne_empty_left _ _
                (append_ne_empty_left _ _ (append_ne_empty_left _ _ (pad2Nat_ne_empty _))))
          · exact tail _ h
        · exact tail _ h

/-- Claim C10, counterexample: the batch POST path stores the record
with date input `"1-2-345"` as `"01-02-345"`, which is not canonical
zero-padded `DD-MM-YYYY` (its year has three digits). -/
theorem claim10_counterexample :
    (postBatch [⟨"V", "", "", "", "1-2-345", "5", "1"⟩]).map (fun r => r.reportDate) =
      ["01-02-345"]
    ∧ isCanonDDMMYYYY "01-02-345" = false := by
  constructor
  · decide
  · decide

/-- Claim C10, amended: every write path of the report store — manual
single POST, batch POST, XLSX upload and PATCH — passes the report date
through `normaliseDate`, the distance through `toDistanceString` and the
trip count through `toTripCount` before persisting, so every stored
record has a non-empty `normaliseDate` output as its date, a
`toDistanceString` output as its distance and a `toTripCount` output as
its count (the date, however, need not be 4-digit-year `DD-MM-YYYY`). -/
theorem claim10_amended :
    (∀ r row, postSingle r = some row → NormalisedStored row)
    ∧ (∀ rs row, row ∈ postBatch rs → NormalisedStored row)
    ∧ (∀ p ex row, patchModel p ex = some row → NormalisedStored row)
    ∧ (∀ sheets row, row ∈ parseWorkbookRows sheets → NormalisedStored row) := by
  have hdate : ∀ (x v : String), (normaliseDate x).getD "" = v → v ≠ "" →
      (∃ y, normaliseDate y = some v) ∧ v ≠ "" := by
    intro x v hv hne
    cases hx : normaliseDate x with
    | none => rw [hx] at hv; simp at hv; exact absurd hv.symm hne
    | some w => rw [hx] at hv; simp at hv; exact ⟨⟨x, by rw [hx, hv]⟩, hne⟩
  refine ⟨?_, ?_, ?_, ?_⟩
  · intro r row h
    simp only [postSingle] at h
    split at h
    · exact absurd h (by simp)
    · split at h
      · exact absurd h (by simp)
      · rename_i hveh hrd
        cases h
        refine ⟨(hdate r.reportDate _ rfl hrd).1, hrd, ⟨r.tripDistanceKm, rfl⟩,
          ⟨r.tripCount, rfl⟩⟩
  · intro rs row h
    rcases List.mem_filter.1 h with ⟨hmem, hcond⟩
    rcases List.mem_map.1 hmem with ⟨r, _, rfl⟩
    simp only [bne_iff_ne, ne_eq, decide_eq_true_eq] at hcond
    refine ⟨(hdate r.reportDate _ rfl hcond).1, hcond, ⟨r.tripDistanceKm, rfl⟩,
      ⟨r.tripCount, rfl⟩⟩
  · intro p ex row h
    unfold patchModel at h
    split at h
    · exact absurd h (by simp)
    · rename_i nd hnd
      cases h
      exact ⟨⟨p.reportDate.getD ex.reportDate, hnd⟩,
        normaliseDate_ne_empty _ _ hnd,
        ⟨p.tripDistanceKm.getD ex.tripDistanceKm, rfl⟩,
        ⟨p.tripCount.getD (intStr ex.tripCount), rfl⟩⟩
  · have hstep : ∀ (st : ScanState) (raw : List String) (r : TripRow),
        r ∈ (stepRow st raw).records → r ∈ st.records ∨ NormalisedStored r := by
      intro st raw r hr
      rcases st with ⟨colIdx, ctx, records⟩
      cases colIdx with
      | none =>
        simp only [stepRow] at hr
        split at hr
        · exact Or.inl hr
        · exact Or.inl hr
      | some ci =>
        simp only [stepRow] at hr
        by_cases hblank : ((raw.map jsTrim).all fun c => decide (c = "")) = true
        · rw [if_pos hblank] at hr; exact Or.inl hr
        · rw [if_neg hblank] at hr
          by_cases hhdr :
              normalizeHeaderS (rdRawOf ci (raw.map jsTrim)) = normalizeHeaderS "Report Date"
          · rw [if_pos hhdr] at hr; exact Or.inl hr
          · rw [if_neg hhdr] at hr
            by_cases hrange : hasSub (rdRawOf ci (raw.map jsTrim)) " - " = true
            · rw [if_pos hrange] at hr; exact Or.inl hr
            · rw [if_neg hrange] at hr
              cases hnd : normaliseDate (rdRawOf ci (raw.map jsTrim)) with
              | none => simp only [hnd] at hr; exact Or.inl hr
              | some rd =>
                simp only [hnd] at hr
                by_cases hveh :
                    (dataRecord ci ctx (raw.map jsTrim) rd).vehicleNo = ""
                · rw [if_pos hveh] at hr; exact Or.inl hr
                · rw [if_neg hveh] at hr
                  rcases List.mem_append.1 hr with hold | hnew
                  · exact Or.inl hold
                  · rcases List.mem_singleton.1 hnew with rfl
                    exact Or.inr ⟨⟨_, hnd⟩, normaliseDate_ne_empty _ _ hnd,
                      ⟨_, rfl⟩, ⟨_, rfl⟩⟩
    have hsheet : ∀ (sheet : List (List String)) (r : TripRow),
        r ∈ parseSheet sheet → NormalisedStored r := by
      intro sheet
      unfold parseSheet scanSheet
      have : ∀ (st : ScanState), (∀ r ∈ st.records, NormalisedStored r) →
          ∀ r ∈ (sheet.foldl stepRow st).records, NormalisedStored r := by
        induction sheet with
        | nil => intro st hst r hr; exact hst r hr
        | cons a t ih =>
          intro st hst r hr
          refine ih (stepRow st a) ?_ r hr
          intro r' hr'
          rcases hstep st a r' hr' with hold | hn
          · exact hst r' hold
          · exact hn
      intro r hr
      exact this initScan (by simp [initScan]) r hr
    intro sheets row h
    unfold parseWorkbookRows at h
    rcases List.mem_flatten.1 h with ⟨l, hl, hrow⟩
    rcases List.mem_map.1 hl with ⟨sheet, _, rfl⟩
    exact hsheet sheet row hrow

/-- Witness for the amended C10 on the concrete batch upload. -/
theorem claim10_amended_witness :
    NormalisedStored ⟨"V", "", "", "", "01-02-345", "5.00 km", 1⟩ :=
  claim10_amended.2.1 [⟨"V", "", "", "", "1-2-345", "5", "1"⟩]
    ⟨"V", "", "", "", "01-02-345", "5.00 km", 1⟩ (by decide)

/-- On an all-blank row every cell access yields the empty string. -/
theorem getCellD_of_blank (row : List String) (i : ℤ)
    (h : (row.all fun c => decide (c = "")) = true) : getCellD row i = "" := by
  unfold getCellD
  split
  · rfl
  · rw [List.getD]
    cases hq : row.get? i.toNat with
    | none => rfl
    | some cell =>
      have hm : cell ∈ row := List.get?_mem hq
      have hc := List.all_eq_true.1 h cell hm
      simp [of_decide_eq_true hc]

/-- `normaliseDate` rejects the empty string. -/
theorem normaliseDate_empty : normaliseDate "" = none := by decide

/-- Claim C3: once a context row has set the carry-forward attributes,
a subsequent data row whose vehicle/area/tanker-type/transporter cells
are blank receives all four values from the context; a row whose
vehicle identifier is still empty after the fallback is skipped without
emitting a record.  On the concrete example sheet the blank data row
yields the `DL1AB1234`/`North` record. -/
theorem claim3_carry_forward :
    (∀ (ci : ColIdx) (ctx : CarryCtx) (recs : List TripRow) (raw : List String) (rd : String),
      getCellD (raw.map jsTrim) ci.vehicle = "" →
      getCellD (raw.map jsTrim) ci.area = "" →
      getCellD (raw.map jsTrim) ci.tankerType = "" →
      getCellD (raw.map jsTrim) ci.transporter = "" →
      normalizeHeaderS (rdRawOf ci (raw.map jsTrim)) ≠ normalizeHeaderS "Report Date" →
      hasSub (rdRawOf ci (raw.map jsTrim)) " - " = false →
      normaliseDate (rdRawOf ci (raw.map jsTrim)) = some rd →
      (ctx.vehicleNo ≠ "" →
        stepRow ⟨some ci, some ctx, recs⟩ raw =
          ⟨some ci, some ctx, recs ++
            [⟨ctx.vehicleNo, ctx.area, ctx.tankerType, ctx.transporterName, rd,
              toDistanceString (getCellD (raw.map jsTrim) ci.distance),
              toTripCount (getCellD (raw.map jsTrim) ci.tripCount)⟩]⟩)
      ∧ (ctx.vehicleNo = "" →
          stepRow ⟨some ci, some ctx, recs⟩ raw = ⟨some ci, some ctx, recs⟩))
    ∧ parseSheet sheetC3 =
        [⟨"DL1AB1234", "North", "Oil", "ACME", "05-07-2025", "12.50 km", 2⟩] := by
  constructor
  · intro ci ctx recs raw rd hveh harea htank htrans hhdr hrange hnd
    have hblank : ¬ ((raw.map jsTrim).all fun c => decide (c = "")) = true := by
      intro hall
      have : rdRawOf ci (raw.map jsTrim) = "" := by
        unfold rdRawOf
        split
        · rfl
        · exact getCellD_of_blank _ _ hall
      rw [this, normaliseDate_empty] at hnd
      cases hnd
    have hrec : dataRecord ci (some ctx) (raw.map jsTrim) rd =
        ⟨ctx.vehicleNo, ctx.area, ctx.tankerType, ctx.transporterName, rd,
          toDistanceString (getCellD (raw.map jsTrim) ci.distance),
          toTripCount (getCellD (raw.map jsTrim) ci.tripCount)⟩ := by
      simp [dataRecord, hveh, harea, htank, htrans, jsOrS, ctxVeh, ctxArea, ctxTank, ctxTrans]
    have hrange' : ¬ hasSub (rdRawOf ci (raw.map jsTrim)) " - " = true := by
      rw [hrange]; exact Bool.false_ne_true
    constructor
    · intro hv
      have hcond : ¬ (dataRecord ci (some ctx) (raw.map jsTrim) rd).vehicleNo = "" := by
        rw [hrec]; exact hv
      simp only [stepRow, if_neg hblank, if_neg hhdr, if_neg hrange', hnd, if_neg hcond, hrec]
      rw [if_neg hv]
    · intro hv
      have hcond : (dataRecord ci (some ctx) (raw.map jsTrim) rd).vehicleNo = "" := by
        rw [hrec]; exact hv
      simp only [stepRow, if_neg hblank, if_neg hhdr, if_neg hrange', hnd, if_pos hcond]
  · decide

/-- Witness for C3: the concrete data row after the concrete context
row. -/
theorem claim3_carry_forward_witness :
    stepRow ⟨some ciC3, some ctxC3, []⟩ ["", "", "", "", "05-07-2025", "12.5", "2"] =
      ⟨some ciC3, some ctxC3,
        [⟨"DL1AB1234", "North", "Oil", "ACME", "05-07-2025", "12.50 km", 2⟩]⟩ :=
  ((claim3_carry_forward.1 ciC3 ctxC3 [] ["", "", "", "", "05-07-2025", "12.5", "2"]
      "05-07-2025" (by decide) (by decide) (by decide) (by decide) (by decide) (by decide)
      (by decide)).1 (by decide)).trans (by decide)

/-- Every month slot of the calendar has at least one day. -/
theorem daysInMonth0_pos (y : ℤ) (m : ℕ) (hm : m ≤ 11) : 0 < daysInMonth0 y m := by
  interval_cases m <;> first
  | (simp [daysInMonth0]; split <;> omega)
  | simp [daysInMonth0]

/-- Absolute-month decomposition: quotient. -/
theorem absMonth_ediv (y : ℤ) (m : ℕ) (hm : m ≤ 11) : (y * 12 + m).ediv 12 = y := by
  have h : (y * 12 + (m : ℤ)).ediv 12 = (y * 12 + m) / 12 := rfl
  rw [h]; omega

/-- Absolute-month decomposition: remainder. -/
theorem absMonth_emod (y : ℤ) (m : ℕ) (hm : m ≤ 11) : (y * 12 + m).emod 12 = m := by
  have h : (y * 12 + (m : ℤ)).emod 12 = (y * 12 + m) % 12 := rfl
  rw [h]; omega

/-- Claim C8: the first-page title line expands the request range to
whole calendar months — `new Date(fy, fm, 1)` is the first day of
`dateFrom`'s month and `new Date(ty, tm + 1, 0)` is the last day of
`dateTo`'s month — rendered as
`"{title} (From: {first-day} To: {last-day} )"`. -/
theorem claim8_month_expanded_range (title : String) (dF dT : Ymd)
    (hmF : dF.month0 ≤ 11) (hmT : dT.month0 ≤ 11) :
    jsMakeDate dF.year dF.month0 1 = ⟨dF.year, dF.month0, 1⟩
    ∧ jsMakeDate dT.year ((dT.month0 : ℤ) + 1) 0 =
        ⟨dT.year, dT.month0, daysInMonth0 dT.year dT.month0⟩
    ∧ titleLine title dF dT =
        title ++ " (From: " ++ fmtDate ⟨dF.year, dF.month0, 1⟩ ++ " To: " ++
          fmtDate ⟨dT.year, dT.month0, daysInMonth0 dT.year dT.month0⟩ ++ " )" := by
  have e1 : (dF.year * 12 + (dF.month0 : ℤ)).ediv 12 = dF.year := absMonth_ediv _ _ hmF
  have e2 : ((dF.year * 12 + (dF.month0 : ℤ)).emod 12).toNat = dF.month0 := by
    rw [absMonth_emod _ _ hmF]; exact Int.toNat_natCast _
  have f1 : (dT.year * 12 + (dT.month0 : ℤ)).ediv 12 = dT.year := absMonth_ediv _ _ hmT
  have f2 : ((dT.year * 12 + (dT.month0 : ℤ)).emod 12).toNat = dT.month0 := by
    rw [absMonth_emod _ _ hmT]; exact Int.toNat_natCast _
  have h1 : jsMakeDate dF.year dF.month0 1 = ⟨dF.year, dF.month0, 1⟩ := by
    show walkDay (4 + 1) (dF.year * 12 + dF.month0) (1 - 1) = _
    simp only [walkDay, show ((1 : ℤ) - 1) = 0 from rfl, e1, e2]
    rw [if_neg (by omega), if_pos]
    · simp
    · have := daysInMonth0_pos dF.year dF.month0 hmF
      omega
  have h2 : jsMakeDate dT.year ((dT.month0 : ℤ) + 1) 0 =
      ⟨dT.year, dT.month0, daysInMonth0 dT.year dT.month0⟩ := by
    have hpos := daysInMonth0_pos dT.year dT.month0 hmT
    have hM : dT.year * 12 + ((dT.month0 : ℤ) + 1) - 1 = dT.year * 12 + dT.month0 := by ring
    show walkDay (3 + 1) (dT.year * 12 + ((dT.month0 : ℤ) + 1)) (0 - 1) = _
    rw [walkDay.eq_2, if_pos (by omega : ((0 : ℤ) - 1) < 0), hM, f1, f2]
    rw [show (3 : ℕ) = 2 + 1 from rfl, walkDay.eq_2]
    rw [f1, f2, if_neg (by omega), if_pos (by omega)]
    congr 1
    omega
  exact ⟨h1, h2, by rw [titleLine, h1, h2]⟩

/-- Witness for C8 at a concrete mid-month range (July 15 to August 20,
2025 renders as July 1 to August 31). -/
theorem claim8_month_expanded_range_witness :
    titleLine "Daily Distance Report" ⟨2025, 6, 15⟩ ⟨2025, 7, 20⟩ =
      "Daily Distance Report (From: 01-07-2025 To: 31-08-2025 )" :=
  ((claim8_month_expanded_range "Daily Distance Report" ⟨2025, 6, 15⟩ ⟨2025, 7, 20⟩
      (by decide) (by decide)).2.2).trans (by decide)

/-! ### Lemmas on digit runs -/

theorem takeWhile_append_cons {α : Type} (p : α → Bool) (xs : List α) (y : α) (r : List α)
    (hxs : ∀ c ∈ xs, p c = true) (hy : p y = false) :
    (xs ++ y :: r).takeWhile p = xs := by
  induction xs with
  | nil => simp [List.takeWhile_cons, hy]
  | cons a t ih =>
    have ha := hxs a (List.mem_cons_self a t)
    simp only [List.cons_append, List.takeWhile_cons, ha, if_true]
    rw [ih (fun c hc => hxs c (List.mem_cons_of_mem a hc))]

theorem dropWhile_append_cons {α : Type} (p : α → Bool) (xs : List α) (y : α) (r : List α)
    (hxs : ∀ c ∈ xs, p c = true) (hy : p y = false) :
    (xs ++ y :: r).dropWhile p = y :: r := by
  induction xs with
  | nil => simp [List.dropWhile_cons, hy]
  | cons a t ih =>
    have ha := hxs a (List.mem_cons_self a t)
    simp only [List.cons_append, List.dropWhile_cons, ha, if_true]
    exact ih (fun c hc => hxs c (List.mem_cons_of_mem a hc))

theorem takeWhile_all {α : Type} (p : α → Bool) (xs : List α)
    (hxs : ∀ c ∈ xs, p c = true) : xs.takeWhile p = xs := by
  induction xs with
  | nil => rfl
  | cons a t ih =>
    simp only [List.takeWhile_cons, hxs a (List.mem_cons_self a t), if_true]
    rw [ih (fun c hc => hxs c (List.mem_cons_of_mem a hc))]

theorem dropWhile_all {α : Type} (p : α → Bool) (xs : List α)
    (hxs : ∀ c ∈ xs, p c = true) : xs.dropWhile p = [] := by
  induction xs with
  | nil => rfl
  | cons a t ih =>
    simp only [List.dropWhile_cons, hxs a (List.mem_cons_self a t), if_true]
    exact ih (fun c hc => hxs c (List.mem_cons_of_mem a hc))

theorem dropWhile_eq_self_of_all {α : Type} (p : α → Bool) (l : List α)
    (h : ∀ c ∈ l, p c = false) : l.dropWhile p = l := by
  cases l with
  | nil => rfl
  | cons a t => simp [List.dropWhile_cons, h a (List.mem_cons_self a t)]

/-- A list with no JavaScript whitespace trims to itself. -/
theorem trimList_eq_self (l : List Char) (h : ∀ c ∈ l, jsWsChar c = false) :
    trimList l = l := by
  unfold trimList
  rw [dropWhile_eq_self_of_all _ _ h,
    dropWhile_eq_self_of_all _ _ (fun c hc => h c (List.mem_reverse.1 hc)),
    List.reverse_reverse]

/-- A digit character is not JavaScript whitespace. -/
theorem jsWsChar_of_digit (c : Char) (h : c.isDigit = true) : jsWsChar c = false := by
  cases hw : jsWsChar c with
  | false => rfl
  | true =>
    exfalso
    simp only [jsWsChar, Bool.or_eq_true, decide_eq_true_eq] at hw
    rcases hw with (((((h1 | h1) | h1) | h1) | h1) | h1) <;> subst h1 <;>
      exact absurd h (by decide)

/-- A digit character differs from any non-digit character. -/
theorem isDigit_ne (c x : Char) (hc : c.isDigit = true) (hx : x.isDigit = false) : ¬ c = x := by
  intro h
  rw [h, hx] at hc
  exact Bool.false_ne_true hc

/-- `subAt` recognises exactly the prefixes. -/
theorem subAt_iff (pat l : List Char) : subAt pat l = true ↔ ∃ r, l = pat ++ r := by
  induction pat generalizing l with
  | nil => simp [subAt]
  | cons c p ih =>
    cases l with
    | nil => simp [subAt]
    | cons d t =>
      simp only [subAt, Bool.and_eq_true, decide_eq_true_eq, ih t, List.cons_append,
        List.cons.injEq]
      constructor
      · rintro ⟨rfl, r, rfl⟩
        exact ⟨r, rfl, rfl⟩
      · rintro ⟨r, rfl, rfl⟩
        exact ⟨rfl, r, rfl⟩

/-- `hasSubL` recognises exactly the substrings. -/
theorem hasSubL_iff (pat l : List Char) :
    hasSubL pat l = true ↔ ∃ a b, l = a ++ (pat ++ b) := by
  induction l with
  | nil =>
    simp only [hasSubL, subAt_iff]
    constructor
    · rintro ⟨r, hr⟩
      exact ⟨[], r, by simp [hr.symm]⟩
    · rintro ⟨a, b, hab⟩
      rcases List.append_eq_nil.1 hab.symm with ⟨rfl, h2⟩
      exact ⟨b, h2.symm⟩
  | cons c t ih =>
    simp only [hasSubL, Bool.or_eq_true, subAt_iff, ih]
    constructor
    · rintro (⟨r, hr⟩ | ⟨a, b, hab⟩)
      · exact ⟨[], r, by simp [hr]⟩
      · exact ⟨c :: a, b, by simp [hab]⟩
    · rintro ⟨a, b, hab⟩
      cases a with
      | nil => exact Or.inl ⟨b, by simpa using hab⟩
      | cons a0 a' =>
        right
        rcases (by simpa using hab : c = a0 ∧ t = a' ++ (pat ++ b)) with ⟨rfl, ht⟩
        exact ⟨a', b, ht⟩

/-- `parseNumFull` reduces to the decimal case when the second character
is not a radix marker. -/
theorem parseNumFull_decFull (x y : Char) (r : List Char)
    (hy : ¬ (y = 'x' ∨ y = 'X' ∨ y = 'o' ∨ y = 'O' ∨ y = 'b' ∨ y = 'B')) :
    parseNumFull (x :: y :: r) = decFull (x :: y :: r) := by
  have h1 : ¬ (x = '0' && (y = 'x' || y = 'X')) = true := by
    simp only [Bool.and_eq_true, Bool.or_eq_true, decide_eq_true_eq]
    rintro ⟨-, h | h⟩ <;> exact hy (by tauto)
  have h2 : ¬ (x = '0' && (y = 'o' || y = 'O')) = true := by
    simp only [Bool.and_eq_true, Bool.or_eq_true, decide_eq_true_eq]
    rintro ⟨-, h | h⟩ <;> exact hy (by tauto)
  have h3 : ¬ (x = '0' && (y = 'b' || y = 'B')) = true := by
    simp only [Bool.and_eq_true, Bool.or_eq_true, decide_eq_true_eq]
    rintro ⟨-, h | h⟩ <;> exact hy (by tauto)
  simp only [parseNumFull]
  rw [if_neg h1, if_neg h2, if_neg h3]

/-- A signed-decimal full parse with a non-empty remainder makes
`Number(...)` reject the string. -/
theorem decFull_of_cons_leftover (l : List Char) (q : ℚ) (c : Char) (r : List Char)
    (h : signedCore l = some (q, c :: r)) : decFull l = none := by
  unfold decFull
  split
  · rw [h]
  · rfl

/-- `mantissaOf` on a digit run followed by a non-dot separator consumes
exactly the run. -/
theorem mantissaOf_digit_run (D : List Char) (s1 : Char) (rest : List Char)
    (hD : ∀ c ∈ D, c.isDigit = true) (hne : D ≠ []) (hs1d : s1.isDigit = false)
    (hdot : ¬ s1 = '.') :
    mantissaOf (D ++ s1 :: rest) = some ((digitsVal D : ℚ), s1 :: rest) := by
  simp only [mantissaOf, takeWhile_append_cons Char.isDigit D s1 rest hD hs1d,
    dropWhile_append_cons Char.isDigit D s1 rest hD hs1d]
  rw [if_neg hdot, if_neg (by simp only [List.isEmpty_iff]; exact hne)]

/-- `expPart` consumes nothing when the head is not an exponent marker. -/
theorem expPart_non_e (c : Char) (r : List Char) (h1 : ¬ c = 'e') (h2 : ¬ c = 'E') :
    expPart (c :: r) = (0, c :: r) := by
  simp only [expPart]
  rw [if_neg (by
    simp only [Bool.or_eq_true, decide_eq_true_eq]
    rintro (h | h)
    · exact h1 h
    · exact h2 h)]

/-- `signedCore` on a digit run followed by a non-numeric separator
consumes exactly the run. -/
theorem signedCore_digit_run (D : List Char) (s1 : Char) (rest : List Char)
    (hD : ∀ c ∈ D, c.isDigit = true) (hne : D ≠ []) (hs1d : s1.isDigit = false)
    (hdot : ¬ s1 = '.') (he1 : ¬ s1 = 'e') (he2 : ¬ s1 = 'E') :
    signedCore (D ++ s1 :: rest) =
      some ((digitsVal D : ℚ) * (10 : ℚ) ^ (0 : ℤ), s1 :: rest) := by
  obtain ⟨d, D', rfl⟩ : ∃ d D', D = d :: D' := by
    cases D with
    | nil => exact absurd rfl hne
    | cons d D' => exact ⟨d, D', rfl⟩
  have hd := hD d (List.mem_cons_self d D')
  simp only [signedCore, List.cons_append]
  rw [if_neg (isDigit_ne d '+' hd (by decide)), if_neg (isDigit_ne d '-' hd (by decide))]
  simp only [numCore, ← List.cons_append,
    mantissaOf_digit_run (d :: D') s1 rest hD hne hs1d hdot,
    expPart_non_e s1 rest he1 he2]

/-- Claim C4: every dash- or slash-separated date string with 1–2 digit
day, 1–2 digit month and a 2- or 4-digit year normalises to the
zero-padded `DD-MM-YYYY` form, a 2-digit year ≥ 70 mapping to the 1900s
and < 70 to the 2000s; in particular `"1/2/99" ↦ "01-02-1999"` and
`"5-1-25" ↦ "05-01-2025"`. -/
theorem claim4_dmy_normalisation (D M Y : List Char) (s1 s2 : Char)
    (hD : ∀ c ∈ D, c.isDigit = true) (hD1 : 1 ≤ D.length) (hD2 : D.length ≤ 2)
    (hM : ∀ c ∈ M, c.isDigit = true) (hM1 : 1 ≤ M.length) (hM2 : M.length ≤ 2)
    (hY : ∀ c ∈ Y, c.isDigit = true) (hYlen : Y.length = 2 ∨ Y.length = 4)
    (hs1 : s1 = '-' ∨ s1 = '/') (hs2 : s2 = '-' ∨ s2 = '/') :
    normaliseDate ⟨D ++ s1 :: (M ++ s2 :: Y)⟩ =
      some (padStart2 ⟨D⟩ ++ "-" ++ padStart2 ⟨M⟩ ++ "-" ++ yearFix ⟨Y⟩)
    ∧ (Y.length = 2 → 70 ≤ digitsVal Y → yearFix ⟨Y⟩ = "19" ++ ⟨Y⟩)
    ∧ (Y.length = 2 → digitsVal Y < 70 → yearFix ⟨Y⟩ = "20" ++ ⟨Y⟩)
    ∧ normaliseDate "1/2/99" = some "01-02-1999"
    ∧ normaliseDate "5-1-25" = some "05-01-2025" := by
  refine ⟨?_, ?_, ?_, by decide, by decide⟩
  · have hs1d : s1.isDigit = false := by rcases hs1 with rfl | rfl <;> decide
    have hs2d : s2.isDigit = false := by rcases hs2 with rfl | rfl <;> decide
    set l := D ++ s1 :: (M ++ s2 :: Y) with hl
    have hchars : ∀ c ∈ l, c.isDigit = true ∨ c = s1 ∨ c = s2 := by
      intro c hc
      rcases List.mem_append.1 hc with h | h
      · exact Or.inl (hD c h)
      · rcases List.mem_cons.1 h with rfl | h
        · exact Or.inr (Or.inl rfl)
        · rcases List.mem_append.1 h with h | h
          · exact Or.inl (hM c h)
          · rcases List.mem_cons.1 h with rfl | h
            · exact Or.inr (Or.inr rfl)
            · exact Or.inl (hY c h)
    have hnws : ∀ c ∈ l, jsWsChar c = false := by
      intro c hc
      rcases hchars c hc with h | rfl | rfl
      · exact jsWsChar_of_digit c h
      · rcases hs1 with rfl | rfl <;> decide
      · rcases hs2 with rfl | rfl <;> decide
    have hlne : l ≠ [] := by
      rw [hl]
      intro h
      exact List.cons_ne_nil s1 _ (List.append_eq_nil.mp h).2
    have hsne : (⟨l⟩ : String) ≠ "" := (str_ne_empty_iff _).2 hlne
    have hdata : (⟨l⟩ : String).data = l := rfl
    have htrim : jsTrim ⟨l⟩ = ⟨l⟩ := by
      unfold jsTrim
      rw [hdata, trimList_eq_self l hnws]
    have hnosub : ¬ hasSub ⟨l⟩ " - " = true := by
      intro h
      unfold hasSub at h
      rcases (hasSubL_iff _ _).1 h with ⟨a, b, hab⟩
      have hsp : ' ' ∈ l := by
        rw [hdata] at hab
        rw [hab]
        simp [show (" - " : String).data = [' ', '-', ' '] from rfl]
      rcases hchars ' ' hsp with h1 | h1 | h1
      · exact absurd h1 (by decide)
      · rcases hs1 with rfl | rfl <;> exact absurd h1 (by decide)
      · rcases hs2 with rfl | rfl <;> exact absurd h1 (by decide)
    have hsc : signedCore l =
        some ((digitsVal D : ℚ) * (10 : ℚ) ^ (0 : ℤ), s1 :: (M ++ s2 :: Y)) := by
      refine signedCore_digit_run D s1 _ hD ?_ hs1d ?_ ?_ ?_
      · intro h; rw [h] at hD1; simp at hD1
      · rcases hs1 with rfl | rfl <;> decide
      · rcases hs1 with rfl | rfl <;> decide
      · rcases hs1 with rfl | rfl <;> decide
    have hnumfull : parseNumFull l = none := by
      obtain ⟨d1, D', rfl⟩ : ∃ d D', D = d :: D' := by
        cases D with
        | nil => simp at hD1
        | cons d D' => exact ⟨d, D', rfl⟩
      cases D' with
      | nil =>
        rw [show l = d1 :: s1 :: (M ++ s2 :: Y) from hl]
        rw [parseNumFull_decFull d1 s1 _
          (by rcases hs1 with rfl | rfl <;> simp)]
        exact decFull_of_cons_leftover _ _ _ _ (hl ▸ hsc)
      | cons d2 D'' =>
        have hd2 : d2.isDigit = true := hD d2 (by simp)
        rw [show l = d1 :: d2 :: (D'' ++ s1 :: (M ++ s2 :: Y)) from hl]
        rw [parseNumFull_decFull d1 d2 _ (by
          rintro (h | h | h | h | h | h) <;> rw [h] at hd2 <;> exact absurd hd2 (by decide))]
        exact decFull_of_cons_leftover _ _ _ _ (hl ▸ hsc)
    have hnum : jsNumberOpt ⟨l⟩ = none := by
      unfold jsNumberOpt
      rw [hdata, trimList_eq_self l hnws]
      rw [if_neg (by simp only [List.isEmpty_iff]; exact hlne)]
      exact hnumfull
    have take1 : l.takeWhile Char.isDigit = D :=
      takeWhile_append_cons _ D s1 _ hD hs1d
    have drop1 : l.dropWhile Char.isDigit = s1 :: (M ++ s2 :: Y) :=
      dropWhile_append_cons _ D s1 _ hD hs1d
    have take2 : (M ++ s2 :: Y).takeWhile Char.isDigit = M :=
      takeWhile_append_cons _ M s2 _ hM hs2d
    have drop2 : (M ++ s2 :: Y).dropWhile Char.isDigit = s2 :: Y :=
      dropWhile_append_cons _ M s2 _ hM hs2d
    have hdmy : dmyMatch l = some (D, M, Y) := by
      simp only [dmyMatch, take1, drop1, take2, drop2,
        takeWhile_all _ Y hY, dropWhile_all _ Y hY]
      rw [if_neg (by
        simp only [Bool.or_eq_true, decide_eq_true_eq]
        omega)]
      rw [if_pos (by
        simp only [Bool.or_eq_true, decide_eq_true_eq]
        exact hs1)]
      rw [if_neg (by
        simp only [Bool.or_eq_true, decide_eq_true_eq]
        omega)]
      rw [if_pos (by
        simp only [Bool.or_eq_true, decide_eq_true_eq]
        exact hs2)]
      rw [if_pos (by
        simp only [Bool.and_eq_true, decide_eq_true_eq, List.isEmpty_iff]
        exact ⟨⟨by omega, by omega⟩, trivial⟩)]
    show normaliseDate ⟨l⟩ = _
    unfold normaliseDate
    rw [if_neg hsne, htrim]
    unfold normaliseDateRaw
    rw [if_neg hsne, if_neg hnosub]
    simp only [hnum]
    unfold normaliseDateTail
    rw [hdata]
    simp only [hdmy]
  · intro h2 h70
    unfold yearFix
    rw [if_pos (by rw [show (⟨Y⟩ : String).length = Y.length from rfl]; exact h2),
      if_pos (by rw [show (⟨Y⟩ : String).data = Y from rfl]; exact h70)]
  · intro h2 h70
    unfold yearFix
    rw [if_pos (by rw [show (⟨Y⟩ : String).length = Y.length from rfl]; exact h2),
      if_neg (by rw [show (⟨Y⟩ : String).data = Y from rfl]; omega)]

/-- Witness for C4 at `"31/12/99"` (two-digit year in the 1900s). -/
theorem claim4_dmy_normalisation_witness :
    normaliseDate ⟨['3', '1'] ++ '/' :: (['1', '2'] ++ '/' :: ['9', '9'])⟩ =
      some (padStart2 ⟨['3', '1']⟩ ++ "-" ++ padStart2 ⟨['1', '2']⟩ ++ "-" ++
        yearFix ⟨['9', '9']⟩) :=
  (claim4_dmy_normalisation ['3', '1'] ['1', '2'] ['9', '9'] '/' '/'
    (by decide) (by decide) (by decide) (by decide) (by decide) (by decide)
    (by decide) (by decide) (by decide) (by decide)).1

/-! ### Claim C2: range strings and the context-row branch -/

/-- A list containing a counterexample to `p` does not satisfy `all p`. -/
theorem all_eq_false_of_mem {α : Type} (p : α → Bool) (l : List α) (c : α)
    (hc : c ∈ l) (h : p c = false) : l.all p = false := by
  induction l with
  | nil => simp at hc
  | cons a t ih =>
    rw [List.all_cons]
    rcases List.mem_cons.mp hc with rfl | hm
    · rw [h, Bool.false_and]
    · rw [ih hm, Bool.and_false]

/-- An element on which `p` fails survives `dropWhile p`. -/
theorem mem_dropWhile_of_neg {α : Type} (p : α → Bool) (l : List α) (c : α)
    (hc : c ∈ l) (hpc : p c = false) : c ∈ l.dropWhile p := by
  induction l with
  | nil => simp at hc
  | cons a t ih =>
    rw [List.dropWhile_cons]
    by_cases hpa : p a = true
    · rw [if_pos hpa]
      rcases List.mem_cons.mp hc with rfl | hm
      · rw [hpc] at hpa
        exact absurd hpa Bool.false_ne_true
      · exact ih hm
    · rw [if_neg hpa]
      exact hc

/-- The head of a `dropWhile p` residue falsifies `p`. -/
theorem dropWhile_head_false {α : Type} (p : α → Bool) (l : List α) (d : α) (zs : List α)
    (h : l.dropWhile p = d :: zs) : p d = false := by
  induction l with
  | nil => simp at h
  | cons a t ih =>
    rw [List.dropWhile_cons] at h
    by_cases hpa : p a = true
    · rw [if_pos hpa] at h
      exact ih h
    · rw [if_neg hpa] at h
      injection h with h1 h2
      rw [← h1]
      cases hb : p a with
      | false => rfl
      | true => exact absurd hb hpa

/-- A list containing a counterexample to `p` has a non-trivial
`dropWhile p` residue. -/
theorem exists_cons_of_dropWhile {α : Type} (p : α → Bool) (l : List α) (c : α)
    (hc : c ∈ l) (hpc : p c = false) : ∃ d zs, l.dropWhile p = d :: zs := by
  induction l with
  | nil => simp at hc
  | cons a t ih =>
    rw [List.dropWhile_cons]
    by_cases hpa : p a = true
    · rw [if_pos hpa]
      rcases List.mem_cons.mp hc with rfl | hm
      · rw [hpc] at hpa
        exact absurd hpa Bool.false_ne_true
      · exact ih hm
    · rw [if_neg hpa]
      exact ⟨a, t, rfl⟩

/-- `dropWhile` over an append whose left part satisfies `p` throughout. -/
theorem dropWhile_append_all {α : Type} (p : α → Bool) (xs ys : List α)
    (h : ∀ c ∈ xs, p c = true) :
    (xs ++ ys).dropWhile p = ys.dropWhile p := by
  induction xs with
  | nil => rfl
  | cons a t ih =>
    rw [List.cons_append, List.dropWhile_cons, if_pos (h a (List.mem_cons_self a t))]
    exact ih (fun c hc => h c (List.mem_cons_of_mem a hc))

/-- `dropWhile` over an append whose left part leaves a residue. -/
theorem dropWhile_append_of_cons {α : Type} (p : α → Bool) (xs ys : List α) (d : α)
    (zs : List α) (h : xs.dropWhile p = d :: zs) :
    (xs ++ ys).dropWhile p = d :: (zs ++ ys) := by
  induction xs with
  | nil => simp at h
  | cons a t ih =>
    rw [List.dropWhile_cons] at h
    rw [List.cons_append, List.dropWhile_cons]
    by_cases hpa : p a = true
    · rw [if_pos hpa] at h
      rw [if_pos hpa]
      exact ih h
    · rw [if_neg hpa] at h
      rw [if_neg hpa]
      injection h with h1 h2
      rw [h1, h2]

/-- Trimming a string containing the range separator either keeps an
interior space or collapses the string to a single dash. -/
theorem trim_space_dash (a b : List Char) :
    ' ' ∈ trimList (a ++ ' ' :: '-' :: ' ' :: b) ∨
      trimList (a ++ ' ' :: '-' :: ' ' :: b) = ['-'] := by
  have hws : jsWsChar ' ' = true := by decide
  have hwd : ¬ jsWsChar '-' = true := by decide
  by_cases ha : ∀ c ∈ a, jsWsChar c = true
  · have hu : (a ++ ' ' :: '-' :: ' ' :: b).dropWhile jsWsChar = '-' :: ' ' :: b := by
      rw [dropWhile_append_all _ _ _ ha, List.dropWhile_cons, if_pos hws,
        List.dropWhile_cons, if_neg hwd]
    by_cases hb : ∀ c ∈ b, jsWsChar c = true
    · right
      unfold trimList
      rw [hu, show ('-' :: ' ' :: b).reverse = b.reverse ++ [' ', '-'] by simp,
        dropWhile_append_all _ _ _ (fun c hc => hb c (List.mem_reverse.1 hc))]
      decide
    · left
      push_neg at hb
      obtain ⟨c, hcb, hc⟩ := hb
      have hcf : jsWsChar c = false := by
        cases hq : jsWsChar c with
        | false => rfl
        | true => exact absurd hq hc
      obtain ⟨d, zs, hdz⟩ := exists_cons_of_dropWhile jsWsChar b.reverse c
        (List.mem_reverse.2 hcb) hcf
      unfold trimList
      rw [hu, show ('-' :: ' ' :: b).reverse = b.reverse ++ [' ', '-'] by simp,
        dropWhile_append_of_cons _ _ _ _ _ hdz, List.mem_reverse]
      simp
  · push_neg at ha
    obtain ⟨c, hca, hc⟩ := ha
    have hcf : jsWsChar c = false := by
      cases hq : jsWsChar c with
      | false => rfl
      | true => exact absurd hq hc
    obtain ⟨d, zs, hdz⟩ := exists_cons_of_dropWhile jsWsChar a c hca hcf
    have hu : (a ++ ' ' :: '-' :: ' ' :: b).dropWhile jsWsChar
        = d :: (zs ++ ' ' :: '-' :: ' ' :: b) := dropWhile_append_of_cons _ _ _ _ _ hdz
    left
    unfold trimList
    rw [hu, show (d :: (zs ++ ' ' :: '-' :: ' ' :: b)).reverse
        = b.reverse ++ (' ' :: '-' :: ' ' :: (zs.reverse ++ [d])) by simp]
    by_cases hball : ∀ c ∈ b, jsWsChar c = true
    · rw [dropWhile_append_all _ _ _ (fun c hc => hball c (List.mem_reverse.1 hc)),
        List.dropWhile_cons, if_pos hws, List.dropWhile_cons, if_neg hwd,
        List.mem_reverse]
      simp
    · push_neg at hball
      obtain ⟨e, heb, he⟩ := hball
      have hef : jsWsChar e = false := by
        cases hq : jsWsChar e with
        | false => rfl
        | true => exact absurd hq he
      obtain ⟨d2, zs2, hdz2⟩ := exists_cons_of_dropWhile jsWsChar b.reverse e
        (List.mem_reverse.2 heb) hef
      rw [dropWhile_append_of_cons _ _ _ _ _ hdz2, List.mem_reverse]
      simp

/-- `trim` is idempotent. -/
theorem trimList_idem (l : List Char) : trimList (trimList l) = trimList l := by
  cases hv : ((l.dropWhile jsWsChar).reverse).dropWhile jsWsChar with
  | nil =>
    unfold trimList
    rw [hv]
    rfl
  | cons d zs =>
    cases hu : l.dropWhile jsWsChar with
    | nil =>
      rw [hu] at hv
      simp at hv
    | cons d0 u2 =>
      have hd0 : jsWsChar d0 = false := dropWhile_head_false _ _ _ _ hu
      have hd : jsWsChar d = false := dropWhile_head_false _ _ _ _ hv
      have hsplit : (l.dropWhile jsWsChar).reverse
          = ((l.dropWhile jsWsChar).reverse).takeWhile jsWsChar ++ (d :: zs) := by
        rw [← hv]
        exact (List.takeWhile_append_dropWhile _ _).symm
      have hu2 : l.dropWhile jsWsChar
          = (d :: zs).reverse ++ (((l.dropWhile jsWsChar).reverse).takeWhile jsWsChar).reverse := by
        have h2 := congrArg List.reverse hsplit
        rw [List.reverse_reverse, List.reverse_append] at h2
        exact h2
      cases ht : (d :: zs).reverse with
      | nil => simp at ht
      | cons e tr =>
        have he : e = d0 := by
          rw [ht, hu] at hu2
          rw [List.cons_append] at hu2
          injection hu2 with h1 h2
          exact h1.symm
        have hef : jsWsChar e = false := by rw [he]; exact hd0
        unfold trimList
        rw [hv, ht]
        rw [List.dropWhile_cons, if_neg (by rw [hef]; exact Bool.false_ne_true)]
        rw [← ht, List.reverse_reverse]
        rw [List.dropWhile_cons, if_neg (by rw [hd]; exact Bool.false_ne_true)]

/-- A full decimal literal never contains a space. -/
theorem decFull_space (l : List Char) (h : ' ' ∈ l) : decFull l = none := by
  unfold decFull
  rw [if_neg (by
    intro hh
    rw [all_eq_false_of_mem decNumChar l ' ' h (by decide)] at hh
    exact Bool.false_ne_true hh)]

/-- `Number(...)` fails on any character list containing a space. -/
theorem parseNumFull_space (l : List Char) (h : ' ' ∈ l) : parseNumFull l = none := by
  cases l with
  | nil => simp at h
  | cons c0 r0 =>
    cases r0 with
    | nil =>
      show decFull [c0] = none
      exact decFull_space _ h
    | cons c1 r =>
      simp only [parseNumFull]
      by_cases h1 : (c0 = '0' && (c1 = 'x' || c1 = 'X')) = true
      · rw [if_pos h1]
        simp only [Bool.and_eq_true, Bool.or_eq_true, decide_eq_true_eq] at h1
        have hr : ' ' ∈ r := by
          rcases List.mem_cons.mp h with h2 | h2
          · exact absurd (h2.trans h1.1) (by decide)
          · rcases List.mem_cons.mp h2 with h3 | h3
            · rcases h1.2 with hx | hx
              · exact absurd (h3.trans hx) (by decide)
              · exact absurd (h3.trans hx) (by decide)
            · exact h3
        rw [if_neg (by
          intro hh
          rw [Bool.and_eq_true] at hh
          rw [all_eq_false_of_mem isHexDigitB r ' ' hr (by decide)] at hh
          exact Bool.false_ne_true hh.2)]
      · rw [if_neg h1]
        by_cases h2 : (c0 = '0' && (c1 = 'o' || c1 = 'O')) = true
        · rw [if_pos h2]
          simp only [Bool.and_eq_true, Bool.or_eq_true, decide_eq_true_eq] at h2
          have hr : ' ' ∈ r := by
            rcases List.mem_cons.mp h with h3 | h3
            · exact absurd (h3.trans h2.1) (by decide)
            · rcases List.mem_cons.mp h3 with h4 | h4
              · rcases h2.2 with hx | hx
                · exact absurd (h4.trans hx) (by decide)
                · exact absurd (h4.trans hx) (by decide)
              · exact h4
          rw [if_neg (by
            intro hh
            rw [Bool.and_eq_true] at hh
            rw [all_eq_false_of_mem (fun c => '0' ≤ c && c ≤ '7') r ' ' hr (by decide)] at hh
            exact Bool.false_ne_true hh.2)]
        · rw [if_neg h2]
          by_cases h3 : (c0 = '0' && (c1 = 'b' || c1 = 'B')) = true
          · rw [if_pos h3]
            simp only [Bool.and_eq_true, Bool.or_eq_true, decide_eq_true_eq] at h3
            have hr : ' ' ∈ r := by
              rcases List.mem_cons.mp h with h4 | h4
              · exact absurd (h4.trans h3.1) (by decide)
              · rcases List.mem_cons.mp h4 with h5 | h5
                · rcases h3.2 with hx | hx
                  · exact absurd (h5.trans hx) (by decide)
                  · exact absurd (h5.trans hx) (by decide)
                · exact h5
            rw [if_neg (by
              intro hh
              rw [Bool.and_eq_true] at hh
              rw [all_eq_false_of_mem (fun c => c = '0' || c = '1') r ' ' hr (by decide)] at hh
              exact Bool.false_ne_true hh.2)]
          · rw [if_neg h3]
            exact decFull_space _ h

/-- The day–month–year pattern never matches a list containing a space. -/
theorem dmyMatch_none_of_space (l : List Char) (h : ' ' ∈ l) : dmyMatch l = none := by
  have hnd : (' ' : Char).isDigit = false := by decide
  have h1 : ' ' ∈ l.dropWhile Char.isDigit := mem_dropWhile_of_neg _ _ _ h hnd
  simp only [dmyMatch]
  by_cases hlen : ((l.takeWhile Char.isDigit).length < 1 ||
      2 < (l.takeWhile Char.isDigit).length) = true
  · rw [if_pos hlen]
  · rw [if_neg hlen]
    cases hdw : l.dropWhile Char.isDigit with
    | nil => rfl
    | cons s1 r2 =>
      simp only [hdw]
      rw [hdw] at h1
      rcases List.mem_cons.mp h1 with h2 | h2
      · rw [if_neg (by
          intro hh
          rw [← h2] at hh
          exact absurd hh (by decide))]
      · by_cases hs1 : (s1 = '-' || s1 = '/') = true
        · rw [if_pos hs1]
          have h3 : ' ' ∈ r2.dropWhile Char.isDigit := mem_dropWhile_of_neg _ _ _ h2 hnd
          by_cases hlen2 : ((r2.takeWhile Char.isDigit).length < 1 ||
              2 < (r2.takeWhile Char.isDigit).length) = true
          · rw [if_pos hlen2]
          · rw [if_neg hlen2]
            cases hdw2 : r2.dropWhile Char.isDigit with
            | nil => rfl
            | cons s2 r4 =>
              simp only [hdw2]
              rw [hdw2] at h3
              rcases List.mem_cons.mp h3 with h4 | h4
              · rw [if_neg (by
                  intro hh
                  rw [← h4] at hh
                  exact absurd hh (by decide))]
              · by_cases hs2 : (s2 = '-' || s2 = '/') = true
                · rw [if_pos hs2]
                  have h5 : ' ' ∈ r4.dropWhile Char.isDigit :=
                    mem_dropWhile_of_neg _ _ _ h4 hnd
                  rw [if_neg (by
                    intro hh
                    simp only [Bool.and_eq_true, List.isEmpty_iff] at hh
                    rw [hh.2] at h5
                    simp at h5)]
                · rw [if_neg hs2]
        · rw [if_neg hs1]

/-- The ISO pattern never matches a list containing a space. -/
theorem isoMatch_none_of_space (l : List Char) (h : ' ' ∈ l) : isoMatch l = none := by
  have hnd : (' ' : Char).isDigit = false := by decide
  have h1 : ' ' ∈ l.dropWhile Char.isDigit := mem_dropWhile_of_neg _ _ _ h hnd
  simp only [isoMatch]
  by_cases hy : (l.takeWhile Char.isDigit).length ≠ 4
  · rw [if_pos hy]
  · rw [if_neg hy]
    cases hdw : l.dropWhile Char.isDigit with
    | nil => rfl
    | cons c1 r2 =>
      simp only [hdw]
      rw [hdw] at h1
      rcases List.mem_cons.mp h1 with h2 | h2
      · rw [if_neg (by rw [← h2]; decide)]
      · by_cases hc1 : c1 = '-'
        · rw [if_pos hc1]
          have h3 : ' ' ∈ r2.dropWhile Char.isDigit := mem_dropWhile_of_neg _ _ _ h2 hnd
          by_cases hm : ((r2.takeWhile Char.isDigit).length < 1 ||
              2 < (r2.takeWhile Char.isDigit).length) = true
          · rw [if_pos hm]
          · rw [if_neg hm]
            cases hdw2 : r2.dropWhile Char.isDigit with
            | nil => rfl
            | cons c2 r4 =>
              simp only [hdw2]
              rw [hdw2] at h3
              rcases List.mem_cons.mp h3 with h4 | h4
              · rw [if_neg (by rw [← h4]; decide)]
              · by_cases hc2 : c2 = '-'
                · rw [if_pos hc2]
                  have h5 : ' ' ∈ r4.dropWhile Char.isDigit :=
                    mem_dropWhile_of_neg _ _ _ h4 hnd
                  rw [if_neg (by
                    intro hh
                    simp only [Bool.and_eq_true, List.isEmpty_iff] at hh
                    rw [hh.2] at h5
                    simp at h5)]
                · rw [if_neg hc2]
        · rw [if_neg hc1]

/-- The native-parse fallback rejects any string containing a space. -/
theorem jsDateFallback_space (s : String) (h : ' ' ∈ s.data) :
    jsDateFallback s = none := by
  simp only [jsDateFallback]
  rw [if_pos (by
    rw [all_eq_false_of_mem dtsfChar s.data ' ' h (by decide)]
    rfl)]

/-- Any string containing the range separator normalises to `none`,
whatever surrounds it. -/
theorem normaliseDate_of_range (s : String) (h : hasSub s " - " = true) :
    normaliseDate s = none := by
  by_cases hs : s = ""
  · rw [hs]
    decide
  · unfold normaliseDate
    rw [if_neg hs]
    unfold hasSub at h
    obtain ⟨a, b, hab⟩ := (hasSubL_iff _ _).1 h
    have hdata : s.data = a ++ ' ' :: '-' :: ' ' :: b := hab
    rcases trim_space_dash a b with hsp | heq
    · rw [← hdata] at hsp
      show normaliseDateRaw ⟨trimList s.data⟩ = none
      have htne : (⟨trimList s.data⟩ : String) ≠ "" :=
        (str_ne_empty_iff _).2 (by
          intro hh
          have hh2 : trimList s.data = [] := hh
          rw [hh2] at hsp
          simp at hsp)
      unfold normaliseDateRaw
      rw [if_neg htne]
      by_cases hsub : hasSub ⟨trimList s.data⟩ " - " = true
      · rw [if_pos hsub]
      · rw [if_neg hsub]
        have htt : trimList (String.data ⟨trimList s.data⟩) = trimList s.data := by
          show trimList (trimList s.data) = trimList s.data
          exact trimList_idem s.data
        have hnum : jsNumberOpt ⟨trimList s.data⟩ = none := by
          simp only [jsNumberOpt, htt]
          rw [if_neg (by
            intro hh
            rw [List.isEmpty_iff] at hh
            rw [hh] at hsp
            simp at hsp)]
          exact parseNumFull_space _ hsp
        simp only [hnum]
        simp only [normaliseDateTail]
        simp only [dmyMatch_none_of_space _ hsp, isoMatch_none_of_space _ hsp,
          jsDateFallback_space ⟨trimList s.data⟩ hsp]
    · rw [← hdata] at heq
      show normaliseDateRaw ⟨trimList s.data⟩ = none
      rw [heq]
      decide

/-- Claim C2 counterexample: the trimmed cell `"Report - Date"` contains
the range separator, yet the row loop skips it as a repeated header —
the scan state is unchanged and no carry-forward context is recorded. -/
theorem claim2_counterexample :
    hasSub "Report - Date" " - " = true ∧
    stepRow ⟨some ciC3, none, []⟩ ["A", "KA01", "T", "Tr", "Report - Date", "1", "1"]
      = ⟨some ciC3, none, []⟩ ∧
    (stepRow ⟨some ciC3, none, []⟩ ["A", "KA01", "T", "Tr", "Report - Date", "1", "1"]).ctx
      ≠ some (contextOf ciC3
          (["A", "KA01", "T", "Tr", "Report - Date", "1", "1"].map jsTrim)) := by
  decide

/-- Amended claim C2: every string containing `" - "` normalises to
`none`; and a non-blank row whose report-date cell contains `" - "` and
does not normalise (as a header label) to `"reportdate"` is treated as a
context row — its carry-forward attributes are recorded and no record is
emitted.  (Cells such as `"Report - Date"` instead hit the
repeated-header skip, as the counterexample shows.) -/
theorem claim2_amended :
    (∀ s : String, hasSub s " - " = true → normaliseDate s = none) ∧
    (∀ (ci : ColIdx) (st : ScanState) (raw : List String),
      st.colIdx = some ci →
      (raw.map jsTrim).all (fun c => c = "") = false →
      normalizeHeaderS (rdRawOf ci (raw.map jsTrim)) ≠ normalizeHeaderS "Report Date" →
      hasSub (rdRawOf ci (raw.map jsTrim)) " - " = true →
      stepRow st raw = { st with ctx := some (contextOf ci (raw.map jsTrim)) }) := by
  refine ⟨normaliseDate_of_range, ?_⟩
  intro ci st raw hci hblank hhdr hsub
  simp only [stepRow, hci]
  rw [if_neg (by
    intro hh
    rw [hblank] at hh
    exact Bool.false_ne_true hh)]
  rw [if_neg hhdr, if_pos hsub]

/-- Witness for the amended C2 on the concrete range cell
`"01-07-2025 - 31-07-2025"`. -/
theorem claim2_amended_witness :
    normaliseDate "01-07-2025 - 31-07-2025" = none ∧
    stepRow ⟨some ciC3, none, []⟩
        ["North", "DL1AB1234", "Oil", "ACME", "01-07-2025 - 31-07-2025", "100", "5"]
      = ⟨some ciC3,
         some (contextOf ciC3
           (["North", "DL1AB1234", "Oil", "ACME", "01-07-2025 - 31-07-2025",
             "100", "5"].map jsTrim)), []⟩ :=
  ⟨claim2_amended.1 _ (by decide),
   claim2_amended.2 ciC3 ⟨some ciC3, none, []⟩
     ["North", "DL1AB1234", "Oil", "ACME", "01-07-2025 - 31-07-2025", "100", "5"]
     rfl (by decide) (by decide) (by decide)⟩


/-! ### Claim C6: decimal printing and reparsing -/

/-- `digitChar` inverts `digitVal` below 10. -/
theorem digitVal_digitChar (k : ℕ) (hk : k < 10) : digitVal (digitChar k) = k := by
  interval_cases k <;> decide

/-- `digitChar` produces digit characters below 10. -/
theorem isDigit_digitChar (k : ℕ) (hk : k < 10) : (digitChar k).isDigit = true := by
  interval_cases k <;> decide

/-- Appending one digit multiplies the accumulated value by ten. -/
theorem digitsVal_append_single (xs : List Char) (c : Char) :
    digitsVal (xs ++ [c]) = 10 * digitsVal xs + digitVal c := by
  simp [digitsVal, List.foldl_append]

/-- A leading zero does not change the digit value. -/
theorem digitsVal_cons_zero (l : List Char) : digitsVal ('0' :: l) = digitsVal l := rfl

/-- Every character printed by the digit printer is a digit. -/
theorem natDecimalAux_digits (f : ℕ) :
    ∀ (n : ℕ) (c : Char), c ∈ natDecimalAux f n → c.isDigit = true := by
  induction f with
  | zero =>
    intro n c hc
    simp [natDecimalAux] at hc
  | succ f ih =>
    intro n c hc
    simp only [natDecimalAux] at hc
    by_cases hn : n < 10
    · rw [if_pos hn] at hc
      simp at hc
      rw [hc]
      exact isDigit_digitChar n hn
    · rw [if_neg hn] at hc
      rcases List.mem_append.mp hc with h | h
      · exact ih _ _ h
      · simp at h
        rw [h]
        exact isDigit_digitChar _ (by omega)

/-- With sufficient fuel the digit printer is a section of `digitsVal`. -/
theorem digitsVal_natDecimalAux (f : ℕ) :
    ∀ n, n < f → digitsVal (natDecimalAux f n) = n := by
  induction f with
  | zero => intro n hn; omega
  | succ f ih =>
    intro n hn
    simp only [natDecimalAux]
    by_cases h10 : n < 10
    · rw [if_pos h10]
      simp [digitsVal, digitVal_digitChar n h10]
    · rw [if_neg h10]
      rw [digitsVal_append_single, ih (n / 10) (by omega), digitVal_digitChar _ (by omega)]
      omega

/-- `String(n)` reparses to `n`. -/
theorem digitsVal_natDecimal (n : ℕ) : digitsVal (natDecimal n) = n :=
  digitsVal_natDecimalAux (n + 1) n (Nat.lt_succ_self n)

/-- `String(n)` consists of digits. -/
theorem natDecimal_digits (n : ℕ) : ∀ c ∈ natDecimal n, c.isDigit = true :=
  fun c hc => natDecimalAux_digits _ _ c hc

/-- `String(n)` is never empty. -/
theorem natDecimal_ne_nil (n : ℕ) : natDecimal n ≠ [] := by
  unfold natDecimal
  simp only [natDecimalAux]
  by_cases h10 : n < 10
  · rw [if_pos h10]
    simp
  · rw [if_neg h10]
    simp

/-- Single-digit print, for any positive fuel. -/
theorem natDecimalAux_small (f k : ℕ) (hf : 0 < f) (hk : k < 10) :
    natDecimalAux f k = [digitChar k] := by
  cases f with
  | zero => omega
  | succ f =>
    simp only [natDecimalAux]
    rw [if_pos hk]

/-- `String(m).padStart(2, "0")` for `m < 100`: two digit characters
whose value is `m`. -/
theorem pad2_two (m : ℕ) (hm : m < 100) :
    (padStart2 (natStr m)).data.length = 2 ∧
    (∀ c ∈ (padStart2 (natStr m)).data, c.isDigit = true) ∧
    digitsVal (padStart2 (natStr m)).data = m ∧
    (padStart2 (natStr m)).data ≠ [] := by
  by_cases h10 : m < 10
  · have hnd : natDecimal m = [digitChar m] := natDecimalAux_small _ _ (by omega) h10
    have hL : (natStr m).length = 1 := by
      show (natDecimal m).length = 1
      rw [hnd]
      rfl
    have hpad : padStart2 (natStr m) = "0" ++ natStr m := by
      unfold padStart2
      rw [if_neg (by rw [hL]; norm_num), if_pos hL]
    have hdata : (padStart2 (natStr m)).data = '0' :: natDecimal m := by
      rw [hpad]
      rfl
    rw [hdata, hnd]
    refine ⟨rfl, ?_, ?_, by simp⟩
    · intro c hc
      rcases List.mem_cons.mp hc with rfl | hc2
      · decide
      · simp at hc2
        rw [hc2]
        exact isDigit_digitChar m h10
    · rw [digitsVal_cons_zero]
      simp [digitsVal, digitVal_digitChar m h10]
  · have hnd : natDecimal m = [digitChar (m / 10), digitChar (m % 10)] := by
      unfold natDecimal
      simp only [natDecimalAux]
      rw [if_neg (by omega), natDecimalAux_small m (m / 10) (by omega) (by omega)]
      rfl
    have hL : (natStr m).length = 2 := by
      show (natDecimal m).length = 2
      rw [hnd]
      rfl
    have hpad : padStart2 (natStr m) = natStr m := by
      unfold padStart2
      rw [if_pos (by rw [hL])]
    have hdata : (padStart2 (natStr m)).data = natDecimal m := by
      rw [hpad]
      rfl
    rw [hdata, hnd]
    refine ⟨rfl, ?_, ?_, by simp⟩
    · intro c hc
      rcases List.mem_cons.mp hc with rfl | hc2
      · exact isDigit_digitChar _ (by omega)
      · simp at hc2
        rw [hc2]
        exact isDigit_digitChar _ (by omega)
    · have : digitsVal [digitChar (m / 10), digitChar (m % 10)]
          = 10 * digitVal (digitChar (m / 10)) + digitVal (digitChar (m % 10)) := by
        simp [digitsVal]
      rw [this, digitVal_digitChar _ (by omega), digitVal_digitChar _ (by omega)]
      omega

/-- The character data of `q.toFixed(2)`: optional sign, integer digits,
dot, two fraction digits. -/
theorem fixed2_data (q : ℚ) :
    (jsToFixed2 q).data
      = (if q < 0 then ['-'] else [])
        ++ (natDecimal (round2mag q / 100)
            ++ '.' :: (padStart2 (natStr (round2mag q % 100))).data) := by
  unfold jsToFixed2
  by_cases hq : q < 0
  · rw [if_pos hq, if_pos hq]
    show ((['-'] ++ natDecimal (round2mag q / 100)) ++ ['.'])
        ++ (padStart2 (natStr (round2mag q % 100))).data = _
    simp [List.append_assoc]
  · rw [if_neg hq, if_neg hq]
    show (((List.nil ++ natDecimal (round2mag q / 100)) ++ ['.']))
        ++ (padStart2 (natStr (round2mag q % 100))).data = _
    simp [List.append_assoc]

/-- The printed digits of `toFixed(2)` reassemble to the rounded
magnitude over a hundred. -/
theorem fixed_val (n : ℕ) :
    (digitsVal (natDecimal (n / 100)) : ℚ)
      + (digitsVal (padStart2 (natStr (n % 100))).data : ℚ)
        / (10 : ℚ) ^ (padStart2 (natStr (n % 100))).data.length
      = (n : ℚ) / 100 := by
  obtain ⟨hlen, hdig, hval, hne⟩ := pad2_two (n % 100) (by omega)
  rw [digitsVal_natDecimal, hval, hlen]
  have h2 : (n : ℚ) = 100 * ((n / 100 : ℕ) : ℚ) + ((n % 100 : ℕ) : ℚ) := by
    exact_mod_cast (Nat.div_add_mod n 100).symm
  rw [h2]
  field_simp
  ring

/-- `jsRound2` as a signed magnitude. -/
theorem jsRound2_cases (q : ℚ) :
    jsRound2 q = if q < 0 then -((round2mag q : ℚ) / 100) else (round2mag q : ℚ) / 100 := by
  unfold jsRound2
  by_cases hq : q < 0
  · rw [if_pos hq, if_pos hq]
    ring
  · rw [if_neg hq, if_neg hq]
    ring

/-- Rounding through `toFixed(2)` fixes every value already on the
hundredth grid. -/
theorem jsRound2_centi (z : ℤ) : jsRound2 ((z : ℚ) / 100) = (z : ℚ) / 100 := by
  have h1 : round2mag ((z : ℚ) / 100) = z.natAbs := by
    unfold round2mag
    have habs : (100 : ℚ) * |(z : ℚ) / 100| = |(z : ℚ)| := by
      rw [abs_div, abs_of_pos (by norm_num : (0 : ℚ) < 100)]
      field_simp
    rw [habs, show |(z : ℚ)| = ((z.natAbs : ℤ) : ℚ) by push_cast [Int.cast_natAbs]; ring]
    rw [show ((z.natAbs : ℤ) : ℚ) + 1 / 2 = 1 / 2 + ((z.natAbs : ℤ) : ℚ) by ring]
    rw [Int.floor_add_int]
    norm_num
    rw [Int.abs_eq_natAbs]
    omega
  rw [jsRound2_cases, h1]
  by_cases hz : (z : ℚ) / 100 < 0
  · rw [if_pos hz]
    have hzneg : z < 0 := by
      by_contra hge
      push_neg at hge
      have : (0 : ℚ) ≤ (z : ℚ) / 100 := div_nonneg (by exact_mod_cast hge) (by norm_num)
      linarith
    have hcast : ((z.natAbs : ℕ) : ℚ) = -(z : ℚ) := by
      push_cast [Int.cast_natAbs]
      rw [abs_of_neg (by exact_mod_cast hzneg)]
    rw [hcast]
    ring
  · rw [if_neg hz]
    have hzge : 0 ≤ z := by
      by_contra hlt
      push_neg at hlt
      exact hz (div_neg_of_neg_of_pos (by exact_mod_cast hlt) (by norm_num))
    have hcast : ((z.natAbs : ℕ) : ℚ) = (z : ℚ) := by
      push_cast [Int.cast_natAbs]
      rw [abs_of_nonneg (by exact_mod_cast hzge)]
    rw [hcast]


/-- `String.mk` and `String.data` are inverse. -/
theorem data_mk (l : List Char) : (⟨l⟩ : String).data = l := rfl

/-- Digits are decimal-literal characters. -/
theorem decNumChar_digit (c : Char) (h : c.isDigit = true) : decNumChar c = true := by
  unfold decNumChar
  rw [h]
  rfl

/-- Pointwise truth gives `all`. -/
theorem all_of_forall {α : Type} (p : α → Bool) (l : List α)
    (h : ∀ c ∈ l, p c = true) : l.all p = true := by
  induction l with
  | nil => rfl
  | cons a t ih =>
    rw [List.all_cons, h a (List.mem_cons_self a t),
      ih (fun c hc => h c (List.mem_cons_of_mem a hc))]
    rfl

/-- A complete signed-decimal parse over an admissible character list
makes `Number(...)` succeed. -/
theorem decFull_some (l : List Char) (q : ℚ) (hall : l.all decNumChar = true)
    (h : signedCore l = some (q, [])) : decFull l = some q := by
  unfold decFull
  rw [if_pos hall]
  simp only [h]

/-- `mantissaOf` on `digits.digits` followed by a residue that the digit
scanner does not touch. -/
theorem mantissaOf_frac (D1 D2 T : List Char)
    (hD1 : ∀ c ∈ D1, c.isDigit = true) (hne : D1 ≠ [])
    (htk : (D2 ++ T).takeWhile Char.isDigit = D2)
    (hdr : (D2 ++ T).dropWhile Char.isDigit = T) :
    mantissaOf (D1 ++ '.' :: (D2 ++ T))
      = some ((digitsVal D1 : ℚ) + (digitsVal D2 : ℚ) / (10 : ℚ) ^ D2.length, T) := by
  simp only [mantissaOf,
    takeWhile_append_cons Char.isDigit D1 '.' (D2 ++ T) hD1 (by decide),
    dropWhile_append_cons Char.isDigit D1 '.' (D2 ++ T) hD1 (by decide)]
  rw [if_true, htk, hdr]
  rw [if_neg (by
    simp only [Bool.and_eq_true, List.isEmpty_iff]
    rintro ⟨h1, -⟩
    exact hne h1)]

/-- `numCore` on the same shape, when the residue carries no exponent. -/
theorem numCore_frac (D1 D2 T : List Char)
    (hD1 : ∀ c ∈ D1, c.isDigit = true) (hne : D1 ≠ [])
    (htk : (D2 ++ T).takeWhile Char.isDigit = D2)
    (hdr : (D2 ++ T).dropWhile Char.isDigit = T)
    (hexp : expPart T = (0, T)) :
    numCore (D1 ++ '.' :: (D2 ++ T))
      = some ((digitsVal D1 : ℚ) + (digitsVal D2 : ℚ) / (10 : ℚ) ^ D2.length, T) := by
  simp only [numCore, mantissaOf_frac D1 D2 T hD1 hne htk hdr, hexp]
  norm_num

/-- `signedCore` without a sign character. -/
theorem signedCore_frac_pos (D1 D2 T : List Char)
    (hD1 : ∀ c ∈ D1, c.isDigit = true) (hne : D1 ≠ [])
    (htk : (D2 ++ T).takeWhile Char.isDigit = D2)
    (hdr : (D2 ++ T).dropWhile Char.isDigit = T)
    (hexp : expPart T = (0, T)) :
    signedCore (D1 ++ '.' :: (D2 ++ T))
      = some ((digitsVal D1 : ℚ) + (digitsVal D2 : ℚ) / (10 : ℚ) ^ D2.length, T) := by
  obtain ⟨d, D', rfl⟩ : ∃ d D', D1 = d :: D' := by
    cases D1 with
    | nil => exact absurd rfl hne
    | cons d D' => exact ⟨d, D', rfl⟩
  have hd := hD1 d (List.mem_cons_self d D')
  simp only [signedCore, List.cons_append]
  rw [if_neg (isDigit_ne d '+' hd (by decide)), if_neg (isDigit_ne d '-' hd (by decide))]
  rw [show d :: (D' ++ '.' :: (D2 ++ T)) = (d :: D') ++ '.' :: (D2 ++ T) from rfl]
  exact numCore_frac _ _ _ hD1 hne htk hdr hexp

/-- `signedCore` under a minus sign. -/
theorem signedCore_frac_neg (D1 D2 T : List Char)
    (hD1 : ∀ c ∈ D1, c.isDigit = true) (hne : D1 ≠ [])
    (htk : (D2 ++ T).takeWhile Char.isDigit = D2)
    (hdr : (D2 ++ T).dropWhile Char.isDigit = T)
    (hexp : expPart T = (0, T)) :
    signedCore ('-' :: (D1 ++ '.' :: (D2 ++ T)))
      = some (-((digitsVal D1 : ℚ) + (digitsVal D2 : ℚ) / (10 : ℚ) ^ D2.length), T) := by
  simp only [signedCore]
  rw [if_neg (by decide), if_true]
  rw [numCore_frac D1 D2 T hD1 hne htk hdr hexp]
  rfl

/-- `parseFloat` of an optionally signed fixed-point literal plus an
inert residue. -/
theorem parseFloatQ_sgn (sgnL D1 D2 T : List Char) (hs : sgnL = [] ∨ sgnL = ['-'])
    (hD1 : ∀ c ∈ D1, c.isDigit = true) (hne : D1 ≠ [])
    (htk : (D2 ++ T).takeWhile Char.isDigit = D2)
    (hdr : (D2 ++ T).dropWhile Char.isDigit = T)
    (hexp : expPart T = (0, T)) :
    parseFloatQ ⟨sgnL ++ (D1 ++ '.' :: (D2 ++ T))⟩
      = some ((if sgnL = ['-'] then (-1 : ℚ) else 1)
          * ((digitsVal D1 : ℚ) + (digitsVal D2 : ℚ) / (10 : ℚ) ^ D2.length)) := by
  rcases hs with rfl | rfl
  · rw [if_neg (by simp), one_mul]
    obtain ⟨d, D', rfl⟩ : ∃ d D', D1 = d :: D' := by
      cases D1 with
      | nil => exact absurd rfl hne
      | cons d D' => exact ⟨d, D', rfl⟩
    have hd := hD1 d (List.mem_cons_self d D')
    unfold parseFloatQ
    rw [show (⟨([] : List Char) ++ ((d :: D') ++ '.' :: (D2 ++ T))⟩ : String).data
        = d :: (D' ++ '.' :: (D2 ++ T)) from rfl]
    rw [List.dropWhile_cons, if_neg (by rw [jsWsChar_of_digit d hd]; exact Bool.false_ne_true)]
    have hsc := signedCore_frac_pos (d :: D') D2 T hD1 hne htk hdr hexp
    rw [show (d :: D') ++ '.' :: (D2 ++ T) = d :: (D' ++ '.' :: (D2 ++ T)) from rfl] at hsc
    simp only [hsc]
  · rw [if_pos rfl, neg_one_mul]
    unfold parseFloatQ
    rw [show (⟨['-'] ++ (D1 ++ '.' :: (D2 ++ T))⟩ : String).data
        = '-' :: (D1 ++ '.' :: (D2 ++ T)) from rfl]
    rw [List.dropWhile_cons, if_neg (by decide)]
    simp only [signedCore_frac_neg D1 D2 T hD1 hne htk hdr hexp]

/-- `Number(...)` on an optionally signed fixed-point literal. -/
theorem parseNumFull_sgn (sgnL D1 D2 : List Char) (hs : sgnL = [] ∨ sgnL = ['-'])
    (hD1 : ∀ c ∈ D1, c.isDigit = true) (hne : D1 ≠ [])
    (hD2 : ∀ c ∈ D2, c.isDigit = true) :
    parseNumFull (sgnL ++ (D1 ++ '.' :: D2))
      = some ((if sgnL = ['-'] then (-1 : ℚ) else 1)
          * ((digitsVal D1 : ℚ) + (digitsVal D2 : ℚ) / (10 : ℚ) ^ D2.length)) := by
  have htk : (D2 ++ ([] : List Char)).takeWhile Char.isDigit = D2 := by
    rw [List.append_nil]
    exact takeWhile_all _ _ hD2
  have hdr : (D2 ++ ([] : List Char)).dropWhile Char.isDigit = [] := by
    rw [List.append_nil]
    exact dropWhile_all _ _ hD2
  have hsc_pos := signedCore_frac_pos D1 D2 [] hD1 hne htk hdr rfl
  have hsc_neg := signedCore_frac_neg D1 D2 [] hD1 hne htk hdr rfl
  rw [List.append_nil] at hsc_pos hsc_neg
  have hall0 : ∀ c ∈ D1 ++ '.' :: D2, decNumChar c = true := by
    intro c hc
    rcases List.mem_append.mp hc with h | h
    · exact decNumChar_digit c (hD1 c h)
    · rcases List.mem_cons.mp h with rfl | h2
      · decide
      · exact decNumChar_digit c (hD2 c h2)
  obtain ⟨d, D', rfl⟩ : ∃ d D', D1 = d :: D' := by
    cases D1 with
    | nil => exact absurd rfl hne
    | cons d D' => exact ⟨d, D', rfl⟩
  have hd := hD1 d (List.mem_cons_self d D')
  rcases hs with rfl | rfl
  · rw [List.nil_append, if_neg (by simp), one_mul]
    cases D' with
    | nil =>
      rw [show (d :: ([] : List Char)) ++ '.' :: D2 = d :: '.' :: D2 from rfl]
      rw [parseNumFull_decFull d '.' D2
        (by rintro (h | h | h | h | h | h) <;> exact absurd h (by decide))]
      exact decFull_some _ _ (all_of_forall _ _ (fun c hc => hall0 c hc)) hsc_pos
    | cons d2 D2' =>
      have hd2 := hD1 d2 (by simp)
      rw [show (d :: d2 :: D2') ++ '.' :: D2 = d :: d2 :: (D2' ++ '.' :: D2) from rfl]
      rw [parseNumFull_decFull d d2 _
        (by rintro (h | h | h | h | h | h) <;> rw [h] at hd2 <;> exact absurd hd2 (by decide))]
      exact decFull_some _ _ (all_of_forall _ _ (fun c hc => hall0 c hc)) hsc_pos
  · rw [List.singleton_append]
    rw [if_pos rfl, neg_one_mul]
    rw [show '-' :: ((d :: D') ++ '.' :: D2) = '-' :: d :: (D' ++ '.' :: D2) from rfl]
    rw [parseNumFull_decFull '-' d _
      (by rintro (h | h | h | h | h | h) <;> rw [h] at hd <;> exact absurd hd (by decide))]
    refine decFull_some _ _ (all_of_forall _ _ ?_) hsc_neg
    intro c hc
    rcases List.mem_cons.mp hc with rfl | h2
    · decide
    · exact hall0 c h2

/-- `Number(q.toFixed(2))` recovers exactly the rounded value. -/
theorem jsNumberOpt_fixed (q : ℚ) : jsNumberOpt (jsToFixed2 q) = some (jsRound2 q) := by
  obtain ⟨hlen2, hdig2, hval2, hne2⟩ := pad2_two (round2mag q % 100) (by omega)
  have hD1 := natDecimal_digits (round2mag q / 100)
  have hne := natDecimal_ne_nil (round2mag q / 100)
  have hnws : ∀ c ∈ (jsToFixed2 q).data, jsWsChar c = false := by
    rw [fixed2_data q]
    intro c hc
    rcases List.mem_append.mp hc with h | h
    · by_cases hq : q < 0
      · rw [if_pos hq] at h
        simp at h
        rw [h]
        decide
      · rw [if_neg hq] at h
        simp at h
    · rcases List.mem_append.mp h with h2 | h2
      · exact jsWsChar_of_digit c (hD1 c h2)
      · rcases List.mem_cons.mp h2 with rfl | h3
        · decide
        · exact jsWsChar_of_digit c (hdig2 c h3)
  have hnn : (jsToFixed2 q).data ≠ [] := by
    rw [fixed2_data q]
    intro hh
    rcases List.append_eq_nil.mp hh with ⟨-, h2⟩
    exact hne (List.append_eq_nil.mp h2).1
  unfold jsNumberOpt
  rw [trimList_eq_self _ hnws]
  rw [if_neg (by
    simp only [List.isEmpty_iff]
    exact hnn)]
  rw [fixed2_data q]
  rw [parseNumFull_sgn (if q < 0 then ['-'] else [])
    (natDecimal (round2mag q / 100)) (padStart2 (natStr (round2mag q % 100))).data
    (by
      by_cases hq : q < 0
      · rw [if_pos hq]
        exact Or.inr rfl
      · rw [if_neg hq]
        exact Or.inl rfl)
    hD1 hne hdig2]
  rw [fixed_val (round2mag q), jsRound2_cases]
  by_cases hq : q < 0
  · simp only [if_pos hq]
    rw [if_true, neg_one_mul]
  · simp only [if_neg hq]
    rw [if_neg (by simp), one_mul]

/-- `Number(x.toFixed(2))` fixes values on the hundredth grid. -/
theorem summaryRound_centi (z : ℤ) : summaryRound ((z : ℚ) / 100) = (z : ℚ) / 100 := by
  unfold summaryRound
  rw [jsNumberOpt_fixed]
  simp only [Option.getD_some]
  exact jsRound2_centi z


/-- The `KM_MATCHER` body on a fixed-point literal followed by `" km"`. -/
theorem kmBody_frac (sgn D1 D2 R : List Char)
    (hD1 : ∀ c ∈ D1, c.isDigit = true)
    (htk : (D2 ++ R).takeWhile Char.isDigit = D2) (hD2ne : D2 ≠ []) :
    kmBody sgn (D1 ++ '.' :: (D2 ++ R)) = some (sgn ++ D1 ++ '.' :: D2) := by
  have hie : D2.isEmpty = false := by
    cases D2 with
    | nil => exact absurd rfl hD2ne
    | cons e t => rfl
  simp only [kmBody,
    takeWhile_append_cons Char.isDigit D1 '.' (D2 ++ R) hD1 (by decide),
    dropWhile_append_cons Char.isDigit D1 '.' (D2 ++ R) hD1 (by decide)]
  rw [if_true, htk]
  rw [if_pos (by rw [hie]; rfl)]

/-- `KM_MATCHER` at the start of an unsigned fixed-point literal. -/
theorem kmMatchAt_frac_pos (D1 D2 R : List Char)
    (hD1 : ∀ c ∈ D1, c.isDigit = true) (hne : D1 ≠ [])
    (htk : (D2 ++ R).takeWhile Char.isDigit = D2) (hD2ne : D2 ≠ []) :
    kmMatchAt (D1 ++ '.' :: (D2 ++ R)) = some (D1 ++ '.' :: D2) := by
  obtain ⟨d, D', rfl⟩ : ∃ d D', D1 = d :: D' := by
    cases D1 with
    | nil => exact absurd rfl hne
    | cons d D' => exact ⟨d, D', rfl⟩
  have hd := hD1 d (List.mem_cons_self d D')
  simp only [kmMatchAt, List.cons_append]
  rw [if_neg (by
    simp only [Bool.or_eq_true, decide_eq_true_eq]
    rintro (h | h)
    · exact isDigit_ne d '+' hd (by decide) h
    · exact isDigit_ne d '-' hd (by decide) h)]
  rw [show d :: (D' ++ '.' :: (D2 ++ R)) = (d :: D') ++ '.' :: (D2 ++ R) from rfl]
  rw [kmBody_frac [] (d :: D') D2 R hD1 htk hD2ne]
  rfl

/-- `KM_MATCHER` at the start of a negative fixed-point literal. -/
theorem kmMatchAt_frac_neg (D1 D2 R : List Char)
    (hD1 : ∀ c ∈ D1, c.isDigit = true)
    (htk : (D2 ++ R).takeWhile Char.isDigit = D2) (hD2ne : D2 ≠ []) :
    kmMatchAt ('-' :: (D1 ++ '.' :: (D2 ++ R))) = some ('-' :: (D1 ++ '.' :: D2)) := by
  simp only [kmMatchAt]
  rw [if_pos (by decide)]
  rw [kmBody_frac ['-'] D1 D2 R hD1 htk hD2ne]
  rfl

/-- The leftmost `KM_MATCHER` match of an unsigned fixed-point literal is
at position zero. -/
theorem kmFirstMatch_frac_pos (D1 D2 R : List Char)
    (hD1 : ∀ c ∈ D1, c.isDigit = true) (hne : D1 ≠ [])
    (htk : (D2 ++ R).takeWhile Char.isDigit = D2) (hD2ne : D2 ≠ []) :
    kmFirstMatch (D1 ++ '.' :: (D2 ++ R)) = some (D1 ++ '.' :: D2) := by
  obtain ⟨d, D', rfl⟩ : ∃ d D', D1 = d :: D' := by
    cases D1 with
    | nil => exact absurd rfl hne
    | cons d D' => exact ⟨d, D', rfl⟩
  have hkm := kmMatchAt_frac_pos (d :: D') D2 R hD1 hne htk hD2ne
  simp only [List.cons_append] at hkm ⊢
  simp only [kmFirstMatch, hkm]

/-- The leftmost `KM_MATCHER` match of a negative fixed-point literal is
at position zero, including the sign. -/
theorem kmFirstMatch_frac_neg (D1 D2 R : List Char)
    (hD1 : ∀ c ∈ D1, c.isDigit = true)
    (htk : (D2 ++ R).takeWhile Char.isDigit = D2) (hD2ne : D2 ≠ []) :
    kmFirstMatch ('-' :: (D1 ++ '.' :: (D2 ++ R))) = some ('-' :: (D1 ++ '.' :: D2)) := by
  simp only [kmFirstMatch, kmMatchAt_frac_neg D1 D2 R hD1 htk hD2ne]

/-- The renderer's lenient parse of `q.toFixed(2) ++ " km"` recovers the
rounded value. -/
theorem parsedOr0_fixed_km (q : ℚ) :
    parsedOr0 (jsToFixed2 q ++ " km") = jsRound2 q := by
  obtain ⟨hlen2, hdig2, hval2, hne2⟩ := pad2_two (round2mag q % 100) (by omega)
  have hD1 := natDecimal_digits (round2mag q / 100)
  have hne := natDecimal_ne_nil (round2mag q / 100)
  have htk : ((padStart2 (natStr (round2mag q % 100))).data
      ++ (' ' :: ['k', 'm'])).takeWhile Char.isDigit
      = (padStart2 (natStr (round2mag q % 100))).data :=
    takeWhile_append_cons _ _ _ _ hdig2 (by decide)
  have hdr : ((padStart2 (natStr (round2mag q % 100))).data
      ++ (' ' :: ['k', 'm'])).dropWhile Char.isDigit = ' ' :: ['k', 'm'] :=
    dropWhile_append_cons _ _ _ _ hdig2 (by decide)
  have hdd2 : (jsToFixed2 q ++ " km").data
      = (if q < 0 then ['-'] else [])
        ++ (natDecimal (round2mag q / 100)
            ++ '.' :: ((padStart2 (natStr (round2mag q % 100))).data
                ++ (' ' :: ['k', 'm']))) := by
    show (jsToFixed2 q).data ++ [' ', 'k', 'm'] = _
    rw [fixed2_data q]
    simp [List.append_assoc]
  have hs2 : jsToFixed2 q ++ " km"
      = (⟨(if q < 0 then ['-'] else [])
          ++ (natDecimal (round2mag q / 100)
              ++ '.' :: ((padStart2 (natStr (round2mag q % 100))).data
                  ++ (' ' :: ['k', 'm'])))⟩ : String) := by
    rw [← hdd2]
  have hpf := parseFloatQ_sgn (if q < 0 then ['-'] else [])
    (natDecimal (round2mag q / 100)) (padStart2 (natStr (round2mag q % 100))).data
    (' ' :: ['k', 'm'])
    (by
      by_cases hq : q < 0
      · rw [if_pos hq]
        exact Or.inr rfl
      · rw [if_neg hq]
        exact Or.inl rfl)
    hD1 hne htk hdr rfl
  unfold parsedOr0
  rw [hs2]
  simp only [hpf]
  rw [fixed_val (round2mag q), jsRound2_cases]
  by_cases hq : q < 0
  · simp only [if_pos hq]
    rw [if_true, neg_one_mul]
  · simp only [if_neg hq]
    rw [if_neg (by simp), one_mul]

/-- The summary's regex-based parse of `q.toFixed(2) ++ " km"` recovers
the same rounded value. -/
theorem parseDistance_fixed_km (q : ℚ) :
    parseDistance (jsToFixed2 q ++ " km") = jsRound2 q := by
  obtain ⟨hlen2, hdig2, hval2, hne2⟩ := pad2_two (round2mag q % 100) (by omega)
  have hD1 := natDecimal_digits (round2mag q / 100)
  have hne := natDecimal_ne_nil (round2mag q / 100)
  have htk : ((padStart2 (natStr (round2mag q % 100))).data
      ++ (' ' :: ['k', 'm'])).takeWhile Char.isDigit
      = (padStart2 (natStr (round2mag q % 100))).data :=
    takeWhile_append_cons _ _ _ _ hdig2 (by decide)
  have htk0 : ((padStart2 (natStr (round2mag q % 100))).data
      ++ ([] : List Char)).takeWhile Char.isDigit
      = (padStart2 (natStr (round2mag q % 100))).data := by
    rw [List.append_nil]
    exact takeWhile_all _ _ hdig2
  have hdr0 : ((padStart2 (natStr (round2mag q % 100))).data
      ++ ([] : List Char)).dropWhile Char.isDigit = [] := by
    rw [List.append_nil]
    exact dropWhile_all _ _ hdig2
  have hdd2 : (jsToFixed2 q ++ " km").data
      = (if q < 0 then ['-'] else [])
        ++ (natDecimal (round2mag q / 100)
            ++ '.' :: ((padStart2 (natStr (round2mag q % 100))).data
                ++ (' ' :: ['k', 'm']))) := by
    show (jsToFixed2 q).data ++ [' ', 'k', 'm'] = _
    rw [fixed2_data q]
    simp [List.append_assoc]
  have hs2 : jsToFixed2 q ++ " km"
      = (⟨(if q < 0 then ['-'] else [])
          ++ (natDecimal (round2mag q / 100)
              ++ '.' :: ((padStart2 (natStr (round2mag q % 100))).data
                  ++ (' ' :: ['k', 'm'])))⟩ : String) := by
    rw [← hdd2]
  have hpf := parseFloatQ_sgn (if q < 0 then ['-'] else [])
    (natDecimal (round2mag q / 100)) (padStart2 (natStr (round2mag q % 100))).data
    ([] : List Char)
    (by
      by_cases hq : q < 0
      · rw [if_pos hq]
        exact Or.inr rfl
      · rw [if_neg hq]
        exact Or.inl rfl)
    hD1 hne htk0 hdr0 rfl
  rw [List.append_nil] at hpf
  unfold parseDistance
  rw [hs2]
  rw [if_neg (by
    intro hh
    have hdne := congrArg String.data hh
    rw [data_mk] at hdne
    rcases List.append_eq_nil.mp hdne with ⟨-, h2⟩
    exact hne (List.append_eq_nil.mp h2).1)]
  rw [data_mk]
  by_cases hq : q < 0
  · simp only [if_pos hq] at hpf ⊢
    rw [List.singleton_append]
    simp only [kmFirstMatch_frac_neg (natDecimal (round2mag q / 100))
      (padStart2 (natStr (round2mag q % 100))).data (' ' :: ['k', 'm']) hD1 htk hne2]
    rw [show ('-' :: (natDecimal (round2mag q / 100)
        ++ '.' :: (padStart2 (natStr (round2mag q % 100))).data))
        = ['-'] ++ (natDecimal (round2mag q / 100)
          ++ '.' :: (padStart2 (natStr (round2mag q % 100))).data) from rfl]
    simp only [hpf]
    rw [fixed_val (round2mag q), jsRound2_cases, if_pos hq, if_true, neg_one_mul]
  · simp only [if_neg hq] at hpf ⊢
    rw [List.nil_append]
    simp only [kmFirstMatch_frac_pos (natDecimal (round2mag q / 100))
      (padStart2 (natStr (round2mag q % 100))).data (' ' :: ['k', 'm']) hD1 hne htk hne2]
    rw [show (natDecimal (round2mag q / 100)
        ++ '.' :: (padStart2 (natStr (round2mag q % 100))).data)
        = [] ++ (natDecimal (round2mag q / 100)
          ++ '.' :: (padStart2 (natStr (round2mag q % 100))).data) from rfl]
    simp only [hpf]
    rw [fixed_val (round2mag q), jsRound2_cases, if_neg hq, if_neg (by simp), one_mul]

/-- On every output of `toDistanceString`, the renderer's `parseFloat`
and the summary's regex parse agree, and the common value lies on the
hundredth grid. -/
theorem dist_facts (v : String) :
    parsedOr0 (toDistanceString v) = parseDistance (toDistanceString v) ∧
    Centi (parseDistance (toDistanceString v)) := by
  cases hk : kmFirstMatch v.data with
  | none =>
    have hz : toDistanceString v = "0 km" := by
      simp only [toDistanceString, hk]
    rw [hz]
    refine ⟨by decide, 0, ?_⟩
    rw [show parseDistance "0 km" = 0 from by decide]
    norm_num
  | some m =>
    cases hf : parseFloatQ ⟨m⟩ with
    | none =>
      have hz : toDistanceString v = "0 km" := by
        simp only [toDistanceString, hk, hf]
      rw [hz]
      refine ⟨by decide, 0, ?_⟩
      rw [show parseDistance "0 km" = 0 from by decide]
      norm_num
    | some q =>
      have hz : toDistanceString v = jsToFixed2 q ++ " km" := by
        simp only [toDistanceString, hk, hf]
      rw [hz, parsedOr0_fixed_km, parseDistance_fixed_km]
      refine ⟨rfl, ?_⟩
      rw [jsRound2_cases]
      by_cases hq : q < 0
      · rw [if_pos hq]
        exact ⟨-(round2mag q : ℤ), by push_cast; ring⟩
      · rw [if_neg hq]
        exact ⟨(round2mag q : ℤ), by push_cast; ring⟩


/-- The hundredth grid is closed under addition. -/
theorem centi_add {a b : ℚ} (ha : Centi a) (hb : Centi b) : Centi (a + b) := by
  obtain ⟨za, rfl⟩ := ha
  obtain ⟨zb, rfl⟩ := hb
  exact ⟨za + zb, by push_cast; ring⟩

/-- The hundredth grid is closed under list sums. -/
theorem centi_list_sum (l : List ℚ) (h : ∀ x ∈ l, Centi x) : Centi l.sum := by
  induction l with
  | nil => exact ⟨0, by norm_num⟩
  | cons a t ih =>
    rw [List.sum_cons]
    exact centi_add (h a (List.mem_cons_self a t))
      (ih (fun x hx => h x (List.mem_cons_of_mem a hx)))

/-- Pointwise-equal functions map lists equally. -/
theorem map_congr_mem {α β : Type} (l : List α) (f g : α → β)
    (h : ∀ a ∈ l, f a = g a) : l.map f = l.map g := by
  induction l with
  | nil => rfl
  | cons a t ih =>
    simp only [List.map_cons]
    rw [h a (List.mem_cons_self a t), ih (fun x hx => h x (List.mem_cons_of_mem a hx))]

/-- Inserting a row into the vehicle map adds its distance to the grand
total of the per-vehicle accumulators. -/
theorem addVeh_sum : ∀ (acc : List (String × VehEntry)) (k : String) (dist : ℚ)
    (trips : ℤ) (r : TripRow),
    sumEntries (addVeh acc k dist trips r) = sumEntries acc + dist := by
  intro acc
  induction acc with
  | nil =>
    intro k dist trips r
    simp [addVeh, sumEntries]
  | cons p0 rest ih =>
    obtain ⟨k2, e⟩ := p0
    intro k dist trips r
    simp only [addVeh]
    by_cases hk : k2 = k
    · rw [if_pos hk]
      simp only [sumEntries, List.map_cons, List.sum_cons]
      ring
    · rw [if_neg hk]
      simp only [sumEntries, List.map_cons, List.sum_cons] at ih ⊢
      rw [ih]
      ring

/-- Inserting a grid-valued distance keeps every accumulator on the
grid. -/
theorem addVeh_centi : ∀ (acc : List (String × VehEntry)) (k : String) (dist : ℚ)
    (trips : ℤ) (r : TripRow), Centi dist →
    (∀ p ∈ acc, Centi p.2.totalDistance) →
    ∀ p ∈ addVeh acc k dist trips r, Centi p.2.totalDistance := by
  intro acc
  induction acc with
  | nil =>
    intro k dist trips r hd hacc p hp
    simp only [addVeh] at hp
    simp at hp
    rw [hp]
    exact hd
  | cons p0 rest ih =>
    obtain ⟨k2, e⟩ := p0
    intro k dist trips r hd hacc p hp
    simp only [addVeh] at hp
    by_cases hk : k2 = k
    · rw [if_pos hk] at hp
      rcases List.mem_cons.mp hp with rfl | hmem
      · exact centi_add (hacc (k2, e) (List.mem_cons_self _ _)) hd
      · exact hacc p (List.mem_cons_of_mem _ hmem)
    · rw [if_neg hk] at hp
      rcases List.mem_cons.mp hp with rfl | hmem
      · exact hacc (k2, e) (List.mem_cons_self _ _)
      · exact ih k dist trips r hd (fun x hx => hacc x (List.mem_cons_of_mem _ hx)) p hmem

/-- Invariant of the `vehicleMap` fold: the accumulators always total the
distances folded so far, and stay on the hundredth grid. -/
theorem summaryFold_inv :
    ∀ (rows : List TripRow) (acc : List (String × VehEntry)),
      (∀ r ∈ rows, Centi (parseDistance r.tripDistanceKm)) →
      (∀ p ∈ acc, Centi p.2.totalDistance) →
      sumEntries (rows.foldl (fun acc r =>
          addVeh acc r.vehicleNo (parseDistance r.tripDistanceKm) r.tripCount r) acc)
        = sumEntries acc + (rows.map (fun r => parseDistance r.tripDistanceKm)).sum ∧
      (∀ p ∈ rows.foldl (fun acc r =>
          addVeh acc r.vehicleNo (parseDistance r.tripDistanceKm) r.tripCount r) acc,
        Centi p.2.totalDistance) := by
  intro rows
  induction rows with
  | nil =>
    intro acc hrows hacc
    constructor
    · simp
    · simpa using hacc
  | cons r rest ih =>
    intro acc hrows hacc
    simp only [List.foldl_cons, List.map_cons, List.sum_cons]
    have hd := hrows r (List.mem_cons_self r rest)
    obtain ⟨ha, hb⟩ := ih
      (addVeh acc r.vehicleNo (parseDistance r.tripDistanceKm) r.tripCount r)
      (fun x hx => hrows x (List.mem_cons_of_mem r hx))
      (addVeh_centi acc r.vehicleNo (parseDistance r.tripDistanceKm) r.tripCount r hd hacc)
    refine ⟨?_, hb⟩
    rw [ha, addVeh_sum]
    ring

/-- On grid-valued distances the double rounding of `buildSummary` is
lossless: its grand total is the plain sum of the per-row parses. -/
theorem buildSummary_total (rows : List TripRow)
    (hc : ∀ r ∈ rows, Centi (parseDistance r.tripDistanceKm)) :
    (buildSummary rows).totalDistance
      = (rows.map (fun r => parseDistance r.tripDistanceKm)).sum := by
  obtain ⟨hsum, hcent⟩ := summaryFold_inv rows [] hc (by intro p hp; simp at hp)
  have hsum2 : sumEntries (summaryFold rows)
      = (rows.map (fun r => parseDistance r.tripDistanceKm)).sum := by
    unfold summaryFold
    rw [hsum]
    simp [sumEntries]
  simp only [buildSummary]
  rw [foldl_add_sum (fun v : VehReport => v.totalDistance), zero_add, List.map_map]
  have hmapeq : ((summaryFold rows).map ((fun v : VehReport => v.totalDistance) ∘
      (fun p : String × VehEntry =>
        ({ vehicleNumber := p.1, area := p.2.area, tankerType := p.2.tankerType,
           transporterName := p.2.transporterName,
           totalDistance := summaryRound p.2.totalDistance,
           totalTrips := p.2.totalTrips } : VehReport))))
      = (summaryFold rows).map (fun p => p.2.totalDistance) := by
    apply map_congr_mem
    intro p hp
    show summaryRound p.2.totalDistance = p.2.totalDistance
    obtain ⟨z, hz⟩ := hcent p hp
    rw [hz, summaryRound_centi]
  rw [hmapeq]
  have hmsum : ((summaryFold rows).map (fun p => p.2.totalDistance)).sum
      = (rows.map (fun r => parseDistance r.tripDistanceKm)).sum := hsum2
  rw [hmsum]
  have hcS : Centi ((rows.map (fun r => parseDistance r.tripDistanceKm)).sum) := by
    apply centi_list_sum
    intro x hx
    obtain ⟨r, hr, rfl⟩ := List.mem_map.mp hx
    exact hc r hr
  obtain ⟨z, hz⟩ := hcS
  rw [hz, summaryRound_centi]

/-- Claim C6: on stored rows (distances written by `toDistanceString`),
the verification summary's grand total equals the renderer's `totalKm`
rounded to two decimals — indeed it equals the renderer's sum exactly. -/
theorem claim6_total_distance (rows : List TripRow)
    (h : ∀ r ∈ rows, ∃ v, r.tripDistanceKm = toDistanceString v) :
    (buildSummary rows).totalDistance = jsRound2 (rendererKmSum rows) ∧
    (buildSummary rows).totalDistance = rendererKmSum rows := by
  have hfacts : ∀ r ∈ rows,
      parsedOr0 r.tripDistanceKm = parseDistance r.tripDistanceKm ∧
      Centi (parseDistance r.tripDistanceKm) := by
    intro r hr
    obtain ⟨v, hv⟩ := h r hr
    rw [hv]
    exact dist_facts v
  have hc : ∀ r ∈ rows, Centi (parseDistance r.tripDistanceKm) :=
    fun r hr => (hfacts r hr).2
  have hrend : rendererKmSum rows
      = (rows.map (fun r => parseDistance r.tripDistanceKm)).sum := by
    unfold rendererKmSum
    rw [foldl_add_sum (fun r : TripRow => parsedOr0 r.tripDistanceKm), zero_add]
    exact congrArg List.sum
      (map_congr_mem rows _ _ (fun r hr => (hfacts r hr).1))
  have htot := buildSummary_total rows hc
  have hcS : Centi ((rows.map (fun r => parseDistance r.tripDistanceKm)).sum) := by
    apply centi_list_sum
    intro x hx
    obtain ⟨r, hr, rfl⟩ := List.mem_map.mp hx
    exact hc r hr
  obtain ⟨z, hz⟩ := hcS
  constructor
  · rw [htot, hrend, hz, jsRound2_centi]
  · rw [htot, hrend]

/-- Witness for C6 on the concrete three-row stored example: both totals
are `20`. -/
theorem claim6_total_distance_witness :
    ((buildSummary rowsC6).totalDistance = jsRound2 (rendererKmSum rowsC6) ∧
     (buildSummary rowsC6).totalDistance = rendererKmSum rowsC6) ∧
    (buildSummary rowsC6).totalDistance = 20 :=
  ⟨claim6_total_distance rowsC6 (by
      intro r hr
      simp only [rowsC6] at hr
      rcases List.mem_cons.mp hr with rfl | hr2
      · exact ⟨"12.5", by decide⟩
      · rcases List.mem_cons.mp hr2 with rfl | hr3
        · exact ⟨"7.5", by decide⟩
        · rcases List.mem_cons.mp hr3 with rfl | hr4
          · exact ⟨"x", by decide⟩
          · simp at hr4),
   by decide⟩


end DJB
